import Mathlib

/-!
Verification development for the CalAge repository (battery test-lab
management).  The definitions below are shallow embeddings of the Python
source files `src/battery.py`, `src/chamber.py` and `src/server.py`:
pure functions mirror the corresponding Python methods, stateful methods
become explicit state-passing functions, exceptions become `Option`/
`Except`-style results that also carry the state at the moment the
exception is raised (the Python methods raise before or during their
mutation loops, and the embedding keeps exactly that order).
-/

namespace CalAge

/-- Unit record, mirroring the attributes set by `Battery.__init__`
(`src/battery.py`).  Only the fields read or written by the embedded
operations are kept. -/
structure Battery where
  proj_name : String
  barcode : String
  seqnum : String
  temperature : Int
  soc : Int
  diagnostic_frequency : Int
  cell_type : String
  form_factor : String
  next_diag : String
  storage_location : String
  current_location : String
  data_file_history : List String
  testing_procedure_history : List String
  testing_start_dates : List String
  test_file_in_progress : String
  active_status : Bool
  under_diag : Bool
  diagnostic_number : Int
deriving Repr, DecidableEq, Inhabited

/-- One channel of a diagnostic chamber.  The Python source keeps four
parallel lists `channels["channel"]`, `channels["state"]`,
`channels["form_factor"]`, `channels["battery"]` of equal length; the
embedding packages the i-th entry of each list into one record. -/
structure Channel where
  channel : String
  state : String
  form_factor : String
  battery : String
deriving Repr, DecidableEq, Inhabited

/-- `DiagnosticChamber.__init__` (`src/chamber.py`). -/
structure DiagnosticChamber where
  name : String
  channels : List Channel
  in_operation : Bool
  diagnostic_start_time : String
deriving Repr, DecidableEq, Inhabited

/-- `TemperatureChamber.__init__` (`src/chamber.py`). -/
structure TemperatureChamber where
  name : String
  temperature : Int
  battery_list : List String
  battery_under_diagnostic : List String
deriving Repr, DecidableEq, Inhabited

/-! ### Battery construction and checkup (`src/battery.py`) -/

/-- `valid_form_factors` from `Battery.__init__` (src/battery.py line 77). -/
def valid_form_factors : List String := ["21700", "18650", "pouch", "prismatic"]

/-- `Battery.__init__` (src/battery.py lines 11-79).  `todayStr` stands for
`date.today().strftime("%m/%d/%Y")`, an ambient input of the constructor.
The Python constructor assigns every field, then runs the `next_diag`
branch (lines 70-74: when the argument differs from the literal string
`"today"` it stores today's date, otherwise it stores the argument
unchanged, i.e. the literal `"today"`), and finally raises `ValueError`
when the form factor is not one of `valid_form_factors` (lines 77-79); a
raise inside `__init__` means no object is produced, hence the `Except`
result. -/
def batteryInit (proj_name barcode seqnum : String) (temperature soc diagnostic_frequency : Int)
    (cell_type form_factor next_diag todayStr : String) : Except String Battery :=
  let b : Battery :=
    { proj_name := proj_name, barcode := barcode, seqnum := seqnum,
      temperature := temperature, soc := soc,
      diagnostic_frequency := diagnostic_frequency, cell_type := cell_type,
      form_factor := form_factor,
      next_diag := if next_diag ≠ "today" then todayStr else next_diag,
      storage_location := "Unassigned", current_location := "Unassigned",
      data_file_history := [], testing_procedure_history := [],
      testing_start_dates := [], test_file_in_progress := "",
      active_status := true, under_diag := false, diagnostic_number := 0 }
  if form_factor ∈ valid_form_factors then Except.ok b
  else Except.error ("Choose valid form factor from: " ++ String.intercalate ", " valid_form_factors)

/-- Split a character list at every `/`. -/
def splitOnSlash : List Char → List (List Char)
  | [] => [[]]
  | c :: rest =>
    let r := splitOnSlash rest
    if c = '/' then [] :: r
    else match r with
      | [] => [[c]]
      | g :: gs => (c :: g) :: gs

/-- Read a non-empty all-digit character list as a decimal number. -/
def digitsToNat? (cs : List Char) : Option Nat :=
  if cs.isEmpty then none
  else cs.foldl (fun acc c =>
    match acc with
    | some n => if c.isDigit then some (n * 10 + (c.toNat - '0'.toNat)) else none
    | none => none) (some 0)

/-- Model of `datetime.strptime(s, "%m/%d/%Y")`: the string must consist of
three `/`-separated decimal fields (month, day, year); any other shape —
in particular the literal string `"today"`, which contains no slash —
raises `ValueError`, modelled as `none`. -/
def parseMMDDYYYY (s : String) : Option (Nat × Nat × Nat) :=
  match (splitOnSlash s.data).map digitsToNat? with
  | [some m, some d, some y] => some (m, d, y)
  | _ => none

/-- `Battery.ready_for_checkup` (src/battery.py lines 81-93): parse
`self.next_diag` with `strptime("%m/%d/%Y")` and compare with today.  A
parse failure propagates as `none`.  Today's date is passed as an already
parsed `(month, day, year)` triple and the calendar comparison is kept
abstract in `laterEq`. -/
def ready_for_checkup (laterEq : Nat × Nat × Nat → Nat × Nat × Nat → Bool)
    (b : Battery) (today : Nat × Nat × Nat) : Option Bool :=
  match parseMMDDYYYY b.next_diag with
  | none => none
  | some d => some (laterEq today d)

/-! ### Scheduler status dispatch (`src/server.py`) -/

/-- `pulp.LpStatusOptimal`. -/
def LpStatusOptimal : Int := 1
/-- `pulp.LpStatusNotSolved`. -/
def LpStatusNotSolved : Int := 0
/-- `pulp.LpStatusInfeasible`. -/
def LpStatusInfeasible : Int := -1
/-- `pulp.LpStatusUnbounded` . -/
def LpStatusUnbounded : Int := -2

/-- Status dispatch of `determine_optimal_schedule` (src/server.py lines
226-242).  The solve itself is performed by the external `pulp` CBC
solver; the embedding takes the solver status and the unpacked schedule
matrix as inputs and mirrors the `if/elif` ladder that turns the status
into either a returned matrix or a raised exception (modelled as
`Except.error` carrying the exception message). -/
def determine_optimal_schedule_dispatch (status : Int) (schedule_matrix : List (List Int)) :
    Except String (List (List Int)) :=
  if status = LpStatusOptimal then Except.ok schedule_matrix
  else if status = LpStatusNotSolved then Except.error "Solver did not finish, no feasible solution found"
  else if status = LpStatusInfeasible then Except.error "Problem is infeasible"
  else if status = LpStatusUnbounded then Except.error "Problem is unbounded"
  else Except.ok schedule_matrix

/-! ### Schedule table projection (`src/server.py`) -/

/-- Barcode-indexed schedule table: the pandas `DataFrame` produced by
`get_panda_df_optimal_schedule` with `Barcode` as index and one named
column per week. -/
structure ScheduleDF where
  barcodes : List String
  cols : List (String × List Int)
deriving Repr, DecidableEq

/-- Column construction of `get_panda_df_optimal_schedule` (src/server.py
lines 382-392): for `i` in `range(max_weeks)` the column named
`"Week_" ++ i` holds column `i` of the solved schedule matrix, and the
frame is indexed by the barcodes of `battery_obj_dict`. -/
def get_panda_df_optimal_schedule (barcodes : List String)
    (schedule_matrix : List (List Int)) (max_weeks : Nat) : ScheduleDF :=
  { barcodes := barcodes,
    cols := (List.range max_weeks).map
      (fun i => ("Week_" ++ toString i, schedule_matrix.map (fun row => row.getD i 0))) }

/-- `batteries_to_test_week` (src/server.py lines 395-402).  The body first
rebinds its `week` parameter to `0` (line 398) and then selects the column
named `"week_0"` (lower-case `w`, line 399); a missing column is a pandas
`KeyError`, modelled as `none`.  On a present column it returns the index
entries whose value is 1. -/
def batteries_to_test_week (schedule_df : ScheduleDF) (week : Nat) : Option (List String) :=
  let week := 0
  match schedule_df.cols.find? (fun c => c.1 == "week_" ++ toString week) with
  | none => none
  | some c => some (((schedule_df.barcodes.zip c.2).filter (fun p => p.2 = 1)).map (fun p => p.1))

/-! ### Storage rack operations (`src/chamber.py`, `TemperatureChamber`) -/

/-- `TemperatureChamber.load_batteries` (src/chamber.py lines 32-41):
appends the new barcodes to `battery_list` with no checks. -/
def load_batteries (tc : TemperatureChamber) (new_batteries : List String) : TemperatureChamber :=
  { tc with battery_list := tc.battery_list ++ new_batteries }

/-- `TemperatureChamber.assign_battery` (src/chamber.py lines 43-68):
raises when the battery temperature differs from the chamber temperature
or when the barcode is already in this chamber's list; otherwise updates
the battery's storage and current location to this chamber and appends
the barcode.  Both raises happen before any mutation. -/
def assign_battery (tc : TemperatureChamber) (b : Battery) :
    Except String (TemperatureChamber × Battery) :=
  if b.temperature ≠ tc.temperature then
    Except.error "Battery object temperature and chamber temperature do not match"
  else if b.barcode ∈ tc.battery_list then
    Except.error "Battery barcode already exists in this chamber"
  else
    Except.ok ({ tc with battery_list := tc.battery_list ++ [b.barcode] },
               { b with storage_location := tc.name, current_location := tc.name })

/-! ### Channel compatibility and assignment (`src/chamber.py`, `DiagnosticChamber`) -/

/-- `DiagnosticChamber.cell_compatible` (src/chamber.py lines 156-184),
indexed by channel position exactly as in the source; callers only pass
in-range indices, and an out-of-range index yields `false`. -/
def cell_compatible (ch : DiagnosticChamber) (channel_num : Nat) (form_factor : String) : Bool :=
  match ch.channels.get? channel_num with
  | none => false
  | some c =>
    if c.state ≠ "unoccupied" then false
    else if c.form_factor = "any" then true
    else if c.form_factor = form_factor then true
    else false

/-- Channel id at a position (used to build the assignment mapping). -/
def channelNameAt (ch : DiagnosticChamber) (i : Nat) : String :=
  ((ch.channels.get? i).map Channel.channel).getD ""

/-- Recursive worker of `assign_channels`: for each battery in order, scan
channel positions `0, 1, …` and take the first one that is
`cell_compatible` and not in the `temporarily_blocked` list; record the
claim and continue, or raise identifying the battery's barcode and form
factor. -/
def assignChannelsGo (ch : DiagnosticChamber) :
    List Battery → List Nat → Except (String × String) (List (String × String))
  | [], _ => Except.ok []
  | b :: rest, blocked =>
    match (List.range ch.channels.length).find?
        (fun i => cell_compatible ch i b.form_factor && !(blocked.contains i)) with
    | some i =>
      match assignChannelsGo ch rest (i :: blocked) with
      | Except.ok tail => Except.ok ((channelNameAt ch i, b.barcode) :: tail)
      | Except.error e => Except.error e
    | none => Except.error (b.barcode, b.form_factor)

/-- `DiagnosticChamber.assign_channels` (src/chamber.py lines 186-236).
The Python method only builds the local `assignment_dict` and
`temporarily_blocked`; it never writes `self.channels`, so the embedding
is a pure function of the chamber: channel state is unchanged by
construction, also when the method raises.  The result lists the
`(channel, barcode)` pairs in insertion order; the error carries the
offending battery's barcode and form factor (line 233). -/
def assign_channels (ch : DiagnosticChamber) (batteries_to_test : List Battery) :
    Except (String × String) (List (String × String)) :=
  assignChannelsGo ch batteries_to_test []

/-- Compatibility rule as the spec words it (spec §4.2): false if the
channel state is not `unoccupied`; true if the capability is the wildcard
`any`; true if it equals the unit's form factor; false otherwise.
Modelled from the spec for comparison with `cell_compatible`. -/
def spec_compatible (c : Channel) (form_factor : String) : Bool :=
  decide (c.state = "unoccupied" ∧ (c.form_factor = "any" ∨ c.form_factor = form_factor))

/-- First-fit assignment as the spec words it (spec §4.2): process units in
input order; for each, scan channels in fixed station order and select the
first channel that is compatible and not already tentatively claimed
earlier in the same batch; if none qualifies, fail with the unit's barcode
and form factor.  Modelled from the spec for comparison with
`assign_channels`. -/
def assignChannelsSpecGo (ch : DiagnosticChamber) :
    List Battery → List Nat → Except (String × String) (List (String × String))
  | [], _ => Except.ok []
  | b :: rest, claimed =>
    match (List.range ch.channels.length).find?
        (fun i => (match ch.channels.get? i with
                   | some c => spec_compatible c b.form_factor
                   | none => false) && !(claimed.contains i)) with
    | some i =>
      match assignChannelsSpecGo ch rest (i :: claimed) with
      | Except.ok tail => Except.ok ((channelNameAt ch i, b.barcode) :: tail)
      | Except.error e => Except.error e
    | none => Except.error (b.barcode, b.form_factor)

/-- Spec-side entry point of the first-fit description. -/
def assign_channels_spec (ch : DiagnosticChamber) (batteries_to_test : List Battery) :
    Except (String × String) (List (String × String)) :=
  assignChannelsSpecGo ch batteries_to_test []

/-! ### Registry lookups shared by the stateful operations.
`battery_obj_dict` and `temp_chamb_obj_dict` are dictionaries keyed by
barcode resp. chamber name; the embedding keeps them as lists and looks
entries up by their key field.  Updates rewrite every entry carrying the
key, which coincides with the dictionary behaviour when keys are unique. -/

/-- `battery_obj_dict[barcode]` as a partial lookup. -/
def findBattery (bs : List Battery) (bc : String) : Option Battery :=
  bs.find? (fun b => b.barcode == bc)

/-- In-place mutation of the battery object stored under `bc`. -/
def updateBattery (bs : List Battery) (bc : String) (f : Battery → Battery) : List Battery :=
  bs.map (fun b => if b.barcode = bc then f b else b)

/-- `temp_chamb_obj_dict[name]` as a partial lookup. -/
def findRack (rs : List TemperatureChamber) (name : String) : Option TemperatureChamber :=
  rs.find? (fun r => r.name == name)

/-- In-place mutation of the temperature chamber stored under `name`. -/
def updateRack (rs : List TemperatureChamber) (name : String)
    (f : TemperatureChamber → TemperatureChamber) : List TemperatureChamber :=
  rs.map (fun r => if r.name = name then f r else r)

/-- Python `list.remove`: drop the first occurrence (callers check
membership first; the `ValueError` on a missing element is raised by the
caller's embedding). -/
def removeFirst : List String → String → List String
  | [], _ => []
  | x :: xs, y => if x = y then xs else x :: removeFirst xs y

/-- `self.channels["channel"].index(name)` followed by the state/battery
writes of the verification loops: rewrite the first channel bearing
`name`, or `none` when no channel does (Python `ValueError`). -/
def setChannelFields : List Channel → String → String → String → Option (List Channel)
  | [], _, _, _ => none
  | c :: cs, name, newState, newBattery =>
    if c.channel = name then some ({ c with state := newState, battery := newBattery } :: cs)
    else match setChannelFields cs name newState newBattery with
      | none => none
      | some cs' => some (c :: cs')

/-- First channel bearing a given id (pandas/Python reads resolve channel
ids through first occurrence). -/
def findChannel (cs : List Channel) (name : String) : Option Channel :=
  cs.find? (fun c => c.channel == name)

/-! ### Verification gate (`src/chamber.py`) -/

/-- One row of a verification checklist: expected barcode, destination
channel, operator-scanned barcode (the location columns are not read by
the verify functions). -/
structure VRow where
  barcode : String
  channel : String
  scanned : String
deriving Repr, DecidableEq, Inhabited

/-- Structured rendering of the exceptions raised by the chamber
operations. -/
inductive OpError where
  /-- `"Incorrect barcodes …"`: carries the offending destinations. -/
  | mismatch (destinations : List String)
  /-- chamber-state exceptions of start/finish. -/
  | stateError (msg : String)
  /-- `KeyError`/`ValueError` from a failed dictionary, index or remove. -/
  | lookup (key : String)
deriving Repr, DecidableEq

/-- Combined mutable state of one diagnostic chamber operation: the
chamber itself, the battery registry and the rack registry. -/
abbrev DState := DiagnosticChamber × List Battery × List TemperatureChamber

/-- `verification_df[(verification_df["Barcode"]!=verification_df["Scanned_Barcode"])]`. -/
def mismatchedRows (rows : List VRow) : List VRow :=
  rows.filter (fun r => r.barcode ≠ r.scanned)

/-- One iteration of the commit loop of `verify_and_load` (src/chamber.py
lines 293-308), in source order: set the channel loaded with the row's
barcode, look the battery up, append the barcode to its storage rack's
`battery_under_diagnostic`, set the battery's current location to the
chamber.  A failed lookup raises with the mutations made so far kept. -/
def verifyAndLoadStep (st : DState) (row : VRow) : Option OpError × DState :=
  match setChannelFields st.1.channels row.channel "loaded" row.barcode with
  | none => (some (OpError.lookup row.channel), st)
  | some cs' =>
    let ch' := { st.1 with channels := cs' }
    match findBattery st.2.1 row.barcode with
    | none => (some (OpError.lookup row.barcode), (ch', st.2.1, st.2.2))
    | some b =>
      match findRack st.2.2 b.storage_location with
      | none => (some (OpError.lookup b.storage_location), (ch', st.2.1, st.2.2))
      | some _ =>
        let rs' := updateRack st.2.2 b.storage_location
          (fun r => { r with battery_under_diagnostic := r.battery_under_diagnostic ++ [row.barcode] })
        let bs' := updateBattery st.2.1 row.barcode
          (fun bb => { bb with current_location := st.1.name })
        (none, (ch', bs', rs'))

/-- The row loop shared by the two verify functions, stopping at the first
raise and keeping the state reached at that point. -/
def runVerifySteps (f : DState → VRow → Option OpError × DState) :
    DState → List VRow → Option OpError × DState
  | st, [] => (none, st)
  | st, r :: rs =>
    match f st r with
    | (none, st') => runVerifySteps f st' rs
    | (some e, st') => (some e, st')

/-- `DiagnosticChamber.verify_and_load` (src/chamber.py lines 275-309):
raise listing the mismatched rows' channels before touching any state, or
run the commit loop over every row. -/
def verify_and_load (st : DState) (rows : List VRow) : Option OpError × DState :=
  let bad := mismatchedRows rows
  if bad.isEmpty then runVerifySteps verifyAndLoadStep st rows
  else (some (OpError.mismatch (bad.map (fun r => r.channel))), st)

/-- One iteration of the commit loop of `verify_and_return` (src/chamber.py
lines 507-522), in source order: set the channel unoccupied with an empty
occupant, look the battery and its storage rack up, `remove` the barcode
from the rack's `battery_under_diagnostic` (a `ValueError` when absent),
set the battery's current location back to the rack. -/
def verifyAndReturnStep (st : DState) (row : VRow) : Option OpError × DState :=
  match setChannelFields st.1.channels row.channel "unoccupied" "" with
  | none => (some (OpError.lookup row.channel), st)
  | some cs' =>
    let ch' := { st.1 with channels := cs' }
    match findBattery st.2.1 row.barcode with
    | none => (some (OpError.lookup row.barcode), (ch', st.2.1, st.2.2))
    | some b =>
      match findRack st.2.2 b.storage_location with
      | none => (some (OpError.lookup b.storage_location), (ch', st.2.1, st.2.2))
      | some r =>
        if row.barcode ∈ r.battery_under_diagnostic then
          let rs' := updateRack st.2.2 b.storage_location
            (fun rk => { rk with battery_under_diagnostic := removeFirst rk.battery_under_diagnostic row.barcode })
          let bs' := updateBattery st.2.1 row.barcode
            (fun bb => { bb with current_location := r.name })
          (none, (ch', bs', rs'))
        else (some (OpError.lookup row.barcode), (ch', st.2.1, st.2.2))

/-- `DiagnosticChamber.verify_and_return` (src/chamber.py lines 483-525):
raise listing the mismatched rows' barcodes before touching any state, or
run the commit loop over every row. -/
def verify_and_return (st : DState) (rows : List VRow) : Option OpError × DState :=
  let bad := mismatchedRows rows
  if bad.isEmpty then runVerifySteps verifyAndReturnStep st rows
  else (some (OpError.mismatch (bad.map (fun r => r.barcode))), st)

/-! ### Station start / finish (`src/chamber.py`) -/

/-- `Battery.generate_data_file` under the default template
`"{battery.proj_name}_{battery.barcode}_{battery.seqnum}_CU{battery.diagnostic_number}"`
(src/battery.py lines 14 and 95-121). -/
def dataFileName (b : Battery) : String :=
  b.proj_name ++ "_" ++ b.barcode ++ "_" ++ b.seqnum ++ "_CU" ++ toString b.diagnostic_number

/-- `Battery.generate_procedure_file` under the default template
`"{battery.proj_name}_{battery.cell_type}_{battery.soc}SOC.mps"`
(src/battery.py lines 15 and 124-149). -/
def procedureFileName (b : Battery) : String :=
  b.proj_name ++ "_" ++ b.cell_type ++ "_" ++ toString b.soc ++ "SOC.mps"

/-- Per-battery side effects of the start loop (src/chamber.py lines
382-390): set `under_diag`, append the start date, generate the data file
name (recorded twice: as the in-progress file and in the history), and
append the generated procedure file name. -/
def startBatteryUpdate (today : String) (b : Battery) : Battery :=
  let d := dataFileName b
  let p := procedureFileName b
  { b with under_diag := true,
           testing_start_dates := b.testing_start_dates ++ [today],
           test_file_in_progress := d,
           data_file_history := b.data_file_history ++ [d],
           testing_procedure_history := b.testing_procedure_history ++ [p] }

/-- The pre-check loop of `start_channel_testing` (src/chamber.py lines
361-368): walk the channels and raise at the first `loaded` channel whose
occupant is missing from the dictionary (`KeyError`) or already under
diagnostic. -/
def startCheck : List Channel → List Battery → Option OpError
  | [], _ => none
  | c :: cs, bs =>
    if c.state = "loaded" then
      match findBattery bs c.battery with
      | none => some (OpError.lookup c.battery)
      | some b =>
        if b.under_diag then
          some (OpError.stateError ("Battery " ++ c.battery ++ " on Channel " ++ c.channel ++ " is already under Diagnostic"))
        else startCheck cs bs
    else startCheck cs bs

/-- The commit loop of `start_channel_testing` (src/chamber.py lines
373-395): every `loaded` channel becomes `running` and its occupant
receives `startBatteryUpdate`, in channel order. -/
def startCommit (today : String) : List Channel → List Battery → List Channel × List Battery
  | [], bs => ([], bs)
  | c :: cs, bs =>
    if c.state = "loaded" then
      let bs' := updateBattery bs c.battery (startBatteryUpdate today)
      let r := startCommit today cs bs'
      ({ c with state := "running" } :: r.1, r.2)
    else
      let r := startCommit today cs bs
      (c :: r.1, r.2)

/-- `DiagnosticChamber.start_channel_testing` (src/chamber.py lines
342-398).  `today` stands for `datetime.today().strftime(...)`.  Both
raises (already in operation, line 357; occupant already under
diagnostic, lines 361-368) happen before any mutation.  On success
`in_operation` is set, the shared `diagnostic_start_time` is stamped
inside the loop — hence only when at least one channel exists — and the
commit loop runs. -/
def start_channel_testing (ch : DiagnosticChamber) (bs : List Battery) (today : String) :
    Option OpError × DiagnosticChamber × List Battery :=
  if ch.in_operation then
    (some (OpError.stateError "Diagnostic Chamber is currently in operation"), ch, bs)
  else
    match startCheck ch.channels bs with
    | some e => (some e, ch, bs)
    | none =>
      let r := startCommit today ch.channels bs
      (none,
       { ch with in_operation := true,
                 diagnostic_start_time := if ch.channels.isEmpty then ch.diagnostic_start_time else today,
                 channels := r.1 },
       r.2)

/-- Per-battery side effects of the finish loop (src/chamber.py lines
427-430). -/
def finishBatteryUpdate (b : Battery) : Battery :=
  { b with under_diag := false,
           diagnostic_number := b.diagnostic_number + 1,
           test_file_in_progress := "" }

/-- The commit loop of `diagnostic_finished` (src/chamber.py lines
419-435): every `running` channel becomes `completed` and its occupant
receives `finishBatteryUpdate`; a missing occupant is a `KeyError`
raised mid-loop, keeping the mutations made before it. -/
def finishCommit : List Channel → List Battery → Option OpError × List Channel × List Battery
  | [], bs => (none, [], bs)
  | c :: cs, bs =>
    if c.state = "running" then
      match findBattery bs c.battery with
      | none => (some (OpError.lookup c.battery), c :: cs, bs)
      | some _ =>
        let bs' := updateBattery bs c.battery finishBatteryUpdate
        let r := finishCommit cs bs'
        (r.1, { c with state := "completed" } :: r.2.1, r.2.2)
    else
      let r := finishCommit cs bs
      (r.1, c :: r.2.1, r.2.2)

/-- `DiagnosticChamber.diagnostic_finished` (src/chamber.py lines 400-438):
raise when the chamber is not in operation; otherwise clear
`in_operation` (before the loop, as in the source) and run the commit
loop. -/
def diagnostic_finished (ch : DiagnosticChamber) (bs : List Battery) :
    Option OpError × DiagnosticChamber × List Battery :=
  if !ch.in_operation then
    (some (OpError.stateError "Diagnostic Chamber is not currently in operation"), ch, bs)
  else
    let r := finishCommit ch.channels bs
    (r.1, { ch with in_operation := false, channels := r.2.1 }, r.2.2)

/-! ### Whole-registry transition system.
The in-memory collections the operator works on it: the battery dictionary,
the diagnostic chambers and the temperature chambers.  A step applies one
of the core mutating operations to one chamber; `assign_channels` never
writes any state (see above) and is included as the identity step. -/

/-- The entity registry: every battery, diagnostic chamber and temperature
chamber currently loaded. -/
structure Registry where
  batteries : List Battery
  chambers : List DiagnosticChamber
  racks : List TemperatureChamber
deriving Repr, DecidableEq

/-- Does some channel of the list run the given barcode? -/
def hasRunning (cs : List Channel) (bc : String) : Bool :=
  cs.any (fun c => c.state == "running" && c.battery == bc)

/-- Does some chamber of the registry run the given barcode? -/
def occupiesRunning (s : Registry) (bc : String) : Bool :=
  s.chambers.any (fun ch => hasRunning ch.channels bc)

/-- A successful `verify_and_load` on chamber `i` with checklist `rows`. -/
def applyLoad (s : Registry) (i : Nat) (rows : List VRow) : Option Registry :=
  match s.chambers.get? i with
  | none => none
  | some ch =>
    match verify_and_load (ch, s.batteries, s.racks) rows with
    | (none, (ch', bs', rs')) =>
      some { batteries := bs', chambers := s.chambers.set i ch', racks := rs' }
    | (some _, _) => none

/-- A successful `start_channel_testing` on chamber `i`. -/
def applyStart (s : Registry) (i : Nat) (today : String) : Option Registry :=
  match s.chambers.get? i with
  | none => none
  | some ch =>
    match start_channel_testing ch s.batteries today with
    | (none, ch', bs') =>
      some { batteries := bs', chambers := s.chambers.set i ch', racks := s.racks }
    | (some _, _, _) => none

/-- A successful `diagnostic_finished` on chamber `i`. -/
def applyFinish (s : Registry) (i : Nat) : Option Registry :=
  match s.chambers.get? i with
  | none => none
  | some ch =>
    match diagnostic_finished ch s.batteries with
    | (none, ch', bs') =>
      some { batteries := bs', chambers := s.chambers.set i ch', racks := s.racks }
    | (some _, _, _) => none

/-- A successful `verify_and_return` on chamber `i` with checklist `rows`. -/
def applyReturn (s : Registry) (i : Nat) (rows : List VRow) : Option Registry :=
  match s.chambers.get? i with
  | none => none
  | some ch =>
    match verify_and_return (ch, s.batteries, s.racks) rows with
    | (none, (ch', bs', rs')) =>
      some { batteries := bs', chambers := s.chambers.set i ch', racks := rs' }
    | (some _, _) => none

/-- One successfully completed core operation, with the operator free to
feed any checklist to the verification gate (the source reads the
checklist back from a CSV and does not constrain it). -/
inductive Step : Registry → Registry → Prop where
  | assign (s : Registry) : Step s s
  | load (s s' : Registry) (i : Nat) (rows : List VRow)
      (h : applyLoad s i rows = some s') : Step s s'
  | start (s s' : Registry) (i : Nat) (today : String)
      (h : applyStart s i today = some s') : Step s s'
  | finish (s s' : Registry) (i : Nat)
      (h : applyFinish s i = some s') : Step s s'
  | ret (s s' : Registry) (i : Nat) (rows : List VRow)
      (h : applyReturn s i rows = some s') : Step s s'

/-- State of the first channel bearing a given id. -/
def stateOfFirst (cs : List Channel) (name : String) : Option String :=
  (findChannel cs name).map Channel.state

/-- A load checklist that follows the channel lifecycle of spec §3: every
row targets a channel that is currently `unoccupied`. -/
def LoadRowsSafe (ch : DiagnosticChamber) (rows : List VRow) : Prop :=
  ∀ r ∈ rows, stateOfFirst ch.channels r.channel = some "unoccupied"

/-- A return checklist that follows the channel lifecycle of spec §3:
every row targets a channel that is currently `completed`. -/
def ReturnRowsSafe (ch : DiagnosticChamber) (rows : List VRow) : Prop :=
  ∀ r ∈ rows, stateOfFirst ch.channels r.channel = some "completed"

/-- A `Step` whose verification checklists respect the channel lifecycle
(`unoccupied → loaded` on the load path, `completed → unoccupied` on the
return path). -/
inductive SafeStep : Registry → Registry → Prop where
  | assign (s : Registry) : SafeStep s s
  | load (s s' : Registry) (i : Nat) (rows : List VRow) (ch : DiagnosticChamber)
      (hch : s.chambers.get? i = some ch) (hsafe : LoadRowsSafe ch rows)
      (h : applyLoad s i rows = some s') : SafeStep s s'
  | start (s s' : Registry) (i : Nat) (today : String)
      (h : applyStart s i today = some s') : SafeStep s s'
  | finish (s s' : Registry) (i : Nat)
      (h : applyFinish s i = some s') : SafeStep s s'
  | ret (s s' : Registry) (i : Nat) (rows : List VRow) (ch : DiagnosticChamber)
      (hch : s.chambers.get? i = some ch) (hsafe : ReturnRowsSafe ch rows)
      (h : applyReturn s i rows = some s') : SafeStep s s'

/-- Reflexive-transitive closure of a step relation. -/
inductive ReachBy (R : Registry → Registry → Prop) : Registry → Registry → Prop where
  | refl (s : Registry) : ReachBy R s s
  | tail (s t u : Registry) : ReachBy R s t → R t u → ReachBy R s u

/-- Spec §3 invariant: a unit is under diagnostic iff it occupies a
channel whose state is `running`. -/
@[reducible] def UnderDiagInv (s : Registry) : Prop :=
  ∀ b ∈ s.batteries, b.under_diag = occupiesRunning s b.barcode

/-- Barcodes of the channels of one chamber that are in state `running`. -/
def runningBarcodes (ch : DiagnosticChamber) : List String :=
  (ch.channels.filter (fun c => c.state == "running")).map (fun c => c.battery)

/-- Placeholder chamber for positional reads. -/
def dummyChamber : DiagnosticChamber :=
  { name := "", channels := [], in_operation := false, diagnostic_start_time := "" }

/-- No registered barcode is running in two different chambers at once
(stated as: any two chamber positions where it runs coincide). -/
@[reducible] def NoCrossRunning (s : Registry) : Prop :=
  ∀ b ∈ s.batteries, ∀ j, j < s.chambers.length → ∀ k, k < s.chambers.length →
    j = k ∨ hasRunning (s.chambers.getD j dummyChamber).channels b.barcode = false ∨
      hasRunning (s.chambers.getD k dummyChamber).channels b.barcode = false

/-- Consistency of a registry state: unique barcodes, the under-diagnostic
invariant, and no barcode running in two chambers. -/
@[reducible] def Consistent (s : Registry) : Prop :=
  (s.batteries.map Battery.barcode).Nodup ∧ UnderDiagInv s ∧ NoCrossRunning s

/-! ### Concrete fixtures used by counterexamples and witnesses -/

/-- A unit with the given barcode, form factor, temperature and storage
location; the remaining constructor arguments at their onboarding
defaults. -/
def mkUnit (bc ff : String) (temp : Int) (loc : String) : Battery :=
  { proj_name := "P", barcode := bc, seqnum := "1", temperature := temp, soc := 50,
    diagnostic_frequency := 4, cell_type := "LFP", form_factor := ff, next_diag := "today",
    storage_location := loc, current_location := loc, data_file_history := [],
    testing_procedure_history := [], testing_start_dates := [], test_file_in_progress := "",
    active_status := true, under_diag := false, diagnostic_number := 0 }

/-- The station of the spec §8 scenarios: channels `[(C1, pouch), (C2, any)]`,
all unoccupied. -/
def stationC3 : DiagnosticChamber :=
  { name := "D", channels := [⟨"C1", "unoccupied", "pouch", ""⟩, ⟨"C2", "unoccupied", "any", ""⟩],
    in_operation := false, diagnostic_start_time := "" }

/-! ### C2: first-fit channel assignment -/

/-- `cell_compatible` agrees pointwise with the spec's compatibility rule. -/
theorem cell_compatible_eq_spec (ch : DiagnosticChamber) (i : Nat) (ff : String) :
    cell_compatible ch i ff =
      (match ch.channels.get? i with
       | some c => spec_compatible c ff
       | none => false) := by
  unfold cell_compatible spec_compatible
  cases h : ch.channels.get? i with
  | none => rfl
  | some c =>
    by_cases h1 : c.state = "unoccupied"
    · by_cases h2 : c.form_factor = "any"
      · simp [h1, h2]
      · by_cases h3 : c.form_factor = ff
        · simp [h1, h2, h3]
        · simp [h1, h2, h3]
    · simp [h1]

theorem assignChannelsGo_eq_spec (ch : DiagnosticChamber) (bs : List Battery) (blocked : List Nat) :
    assignChannelsGo ch bs blocked = assignChannelsSpecGo ch bs blocked := by
  induction bs generalizing blocked with
  | nil => rfl
  | cons b rest ih =>
    unfold assignChannelsGo assignChannelsSpecGo
    have hp : (fun i => cell_compatible ch i b.form_factor && !(blocked.contains i)) =
        (fun i => (match ch.channels.get? i with
                   | some c => spec_compatible c b.form_factor
                   | none => false) && !(blocked.contains i)) := by
      funext i
      rw [cell_compatible_eq_spec]
    simp only [hp, ih]

/-- C2: `assign_channels` is exactly the first-fit procedure of the spec:
units are processed in input order, each takes the first channel in
station order that is compatible (`unoccupied` and capability `any` or
equal to the unit's form factor) and not claimed earlier in the batch,
and a unit with no such channel fails the whole call with its barcode and
form factor.  The Python method never writes `self.channels`, so no
channel state is mutated on either outcome (the embedding is a pure
function of the chamber). -/
theorem claim_C2_first_fit (ch : DiagnosticChamber) (units : List Battery) :
    assign_channels ch units = assign_channels_spec ch units :=
  assignChannelsGo_eq_spec ch units []

/-! ### C3: the spec's second assignment scenario -/

/-- C3 counterexample: on the station `[(C1, pouch), (C2, any)]` with units
`[(A, pouch), (B, pouch)]`, `assign_channels` does not fail at all —
contradicting the claimed `CapacityError` for B. -/
theorem claim_C3_counterexample :
    (assign_channels stationC3 [mkUnit "A" "pouch" 25 "R", mkUnit "B" "pouch" 25 "R"]).isOk = true := by
  rfl

/-- C3 (amended): on the station `[(C1, pouch), (C2, any)]`, all
unoccupied, assigning `[(A, pouch), (B, pouch)]` succeeds with the full
assignment `{C1: A, C2: B}` — the wildcard channel C2 accepts the second
pouch unit, so no capacity error occurs. -/
theorem claim_C3_scenario :
    assign_channels stationC3 [mkUnit "A" "pouch" 25 "R", mkUnit "B" "pouch" 25 "R"] =
      Except.ok [("C1", "A"), ("C2", "B")] := by
  rfl

/-! ### C6: storage-rack invariants -/

/-- Placeholder rack for positional reads. -/
def dummyRack : TemperatureChamber :=
  { name := "", temperature := 0, battery_list := [], battery_under_diagnostic := [] }

/-- The rack invariants of spec §3: a barcode resides in at most one
rack's list across all racks (any two rack positions listing it
coincide), and every unit residing in a rack has the rack's
temperature. -/
@[reducible] def RackInvariant (racks : List TemperatureChamber) (batteries : List Battery) : Prop :=
  (∀ j, j < racks.length → ∀ k, k < racks.length →
    ∀ bc ∈ (racks.getD j dummyRack).battery_list,
      j = k ∨ bc ∉ (racks.getD k dummyRack).battery_list) ∧
  (∀ r ∈ racks, ∀ b ∈ batteries, b.barcode ∉ r.battery_list ∨ b.temperature = r.temperature)

/-- Rack `R1` holding unit `X`. -/
def rackR1 : TemperatureChamber :=
  { name := "R1", temperature := 25, battery_list := ["X"], battery_under_diagnostic := [] }

/-- A second rack at the same temperature, initially empty. -/
def rackR2 : TemperatureChamber :=
  { name := "R2", temperature := 25, battery_list := [], battery_under_diagnostic := [] }

/-- The unit `X` stored in `R1`. -/
def unitX : Battery := mkUnit "X" "pouch" 25 "R1"

/-- A unit whose temperature (40) differs from rack `R1`'s (25). -/
def unitY : Battery := mkUnit "Y" "pouch" 40 "Unassigned"

/-- C6 counterexample: from states satisfying the rack invariants,
`assign_battery` happily places `X` into the second rack `R2` (the method
only checks the target rack), so after the call `X` resides in two racks
and cross-rack uniqueness is broken; and `load_batteries` checks nothing
at all, so loading the 40-degree unit `Y` into the 25-degree rack `R1`
breaks the temperature invariant. -/
theorem claim_C6_counterexample :
    RackInvariant [rackR1, rackR2] [unitX] ∧
    assign_battery rackR2 unitX =
      Except.ok ({ rackR2 with battery_list := ["X"] },
                 { unitX with storage_location := "R2", current_location := "R2" }) ∧
    ¬ RackInvariant [rackR1, { rackR2 with battery_list := ["X"] }]
        [{ unitX with storage_location := "R2", current_location := "R2" }] ∧
    RackInvariant [rackR1] [unitX, unitY] ∧
    ¬ RackInvariant [load_batteries rackR1 ["Y"]] [unitX, unitY] := by
  refine ⟨⟨by decide, by decide⟩, rfl, ?_, ⟨by decide, by decide⟩, ?_⟩
  · intro h
    rcases h.1 1 (by decide) 0 (by decide) "X" (by decide) with h1 | h2
    · exact absurd h1 (by decide)
    · exact h2 (by decide)
  · intro h
    rcases h.2 (load_batteries rackR1 ["Y"]) (by decide) unitY (by decide) with h1 | h2
    · exact h1 (by decide)
    · exact absurd h2 (by decide)

/-! ### C7: form-factor validation -/

/-- C7 counterexample: constructing a unit with the spec's enum value
`cell-cyl-21700` fails, while `21700` — outside the spec's claimed enum —
succeeds: the code's accepted enum is `21700`, `18650`, `pouch`,
`prismatic`. -/
theorem claim_C7_counterexample :
    (batteryInit "P" "B1" "1" 25 50 4 "LFP" "cell-cyl-21700" "today" "10/12/2026").isOk = false ∧
    (batteryInit "P" "B1" "1" 25 50 4 "LFP" "21700" "today" "10/12/2026").isOk = true := by
  exact ⟨rfl, rfl⟩

/-- C7 (amended): constructing a unit fails (with the invalid-form-factor
`ValueError`) if and only if its form factor is not one of the four enum
values `21700`, `18650`, `pouch`, `prismatic`; for a form factor in that
enum, construction succeeds. -/
theorem claim_C7_form_factor (pn bc sq : String) (t s df : Int) (ct ff nd todayStr : String) :
    (batteryInit pn bc sq t s df ct ff nd todayStr).isOk = true ↔
      ff ∈ (["21700", "18650", "pouch", "prismatic"] : List String) := by
  have hv : valid_form_factors = ["21700", "18650", "pouch", "prismatic"] := rfl
  unfold batteryInit
  by_cases h : ff ∈ valid_form_factors
  · rw [if_pos h]
    exact ⟨fun _ => hv ▸ h, fun _ => rfl⟩
  · rw [if_neg h]
    exact ⟨fun hcontra => (Bool.false_ne_true hcontra).elim, fun hmem => absurd (hv ▸ hmem) h⟩

/-! ### C8: distinct error kinds for infeasible and unbounded -/

/-- C8: `determine_optimal_schedule` raises the message
`Problem is infeasible` when the solver reports infeasibility and the
distinct message `Problem is unbounded` when it reports unboundedness. -/
theorem claim_C8_solver_errors (m : List (List Int)) :
    determine_optimal_schedule_dispatch LpStatusInfeasible m = Except.error "Problem is infeasible" ∧
    determine_optimal_schedule_dispatch LpStatusUnbounded m = Except.error "Problem is unbounded" ∧
    ("Problem is infeasible" : String) ≠ "Problem is unbounded" := by
  refine ⟨rfl, rfl, by decide⟩

/-! ### C9: weekly projection of the schedule table -/

theorem week_col_name_ne (t : String) : "Week_" ++ t ≠ "week_0" := by
  intro h
  have hd : ("Week_" ++ t).data = "week_0".data := congrArg String.data h
  rw [String.data_append] at hd
  have hW : "Week_".data = ['W', 'e', 'e', 'k', '_'] := rfl
  have hw : "week_0".data = ['w', 'e', 'e', 'k', '_', '0'] := rfl
  rw [hW, hw] at hd
  simp at hd

/-- C9: `batteries_to_test_week` never returns a week's barcode list on a
table built by `get_panda_df_optimal_schedule`: it looks up the column
`"week_0"` (its `week` argument is overwritten with `0` and the name is
lower-case) while the table's columns are named `"Week_0"`, `"Week_1"`, …,
so the lookup always raises a `KeyError` (`none`), for every week
argument. -/
theorem claim_C9_projection (barcodes : List String) (schedule_matrix : List (List Int))
    (max_weeks week : Nat) :
    batteries_to_test_week (get_panda_df_optimal_schedule barcodes schedule_matrix max_weeks) week
      = none := by
  unfold batteries_to_test_week get_panda_df_optimal_schedule
  have hfind : ((List.range max_weeks).map
      (fun i => ("Week_" ++ toString i, schedule_matrix.map (fun row => row.getD i 0)))).find?
        (fun c => c.1 == "week_" ++ toString 0) = none := by
    rw [List.find?_eq_none]
    intro x hx
    rcases List.mem_map.mp hx with ⟨i, _, rfl⟩
    simp only [beq_eq_false_iff_ne, ne_eq]
    exact fun hcontra => week_col_name_ne (toString i) (by simpa using hcontra)
  simp only [hfind]

/-! ### C10: the `next_diag` default and `ready_for_checkup` -/

/-- C10: with the default `next_diag = "today"` the constructor stores the
literal string `"today"`; with any other (e.g. an explicit MM/DD/YYYY
date) argument it stores today's date instead of the given date; and
`ready_for_checkup` then fails on a default-constructed unit because
`"today"` does not parse as an MM/DD/YYYY date. -/
theorem claim_C10_next_diag (pn bc sq : String) (t s df : Int) (ct ff : String)
    (todayStr nd : String) (hff : ff ∈ valid_form_factors) (hnd : nd ≠ "today")
    (laterEq : Nat × Nat × Nat → Nat × Nat × Nat → Bool) (today : Nat × Nat × Nat) :
    (batteryInit pn bc sq t s df ct ff "today" todayStr).map Battery.next_diag =
      Except.ok "today" ∧
    (batteryInit pn bc sq t s df ct ff nd todayStr).map Battery.next_diag =
      Except.ok todayStr ∧
    (∀ b, batteryInit pn bc sq t s df ct ff "today" todayStr = Except.ok b →
      ready_for_checkup laterEq b today = none) := by
  refine ⟨?_, ?_, ?_⟩
  · unfold batteryInit
    simp [hff, Except.map]
  · unfold batteryInit
    simp [hff, hnd, Except.map]
  · intro b hb
    unfold batteryInit at hb
    rw [if_pos hff] at hb
    have hb2 := Except.ok.inj hb
    have hnext : b.next_diag = "today" := by
      rw [← hb2]
      simp
    unfold ready_for_checkup
    rw [hnext]
    rfl

/-- Witness for C10 at a concrete instantiation. -/
theorem claim_C10_witness :
    (batteryInit "P" "B1" "1" 25 50 4 "LFP" "pouch" "today" "10/12/2026").map Battery.next_diag =
      Except.ok "today" ∧
    (batteryInit "P" "B1" "1" 25 50 4 "LFP" "pouch" "01/29/2024" "10/12/2026").map Battery.next_diag =
      Except.ok "10/12/2026" ∧
    (∀ b, batteryInit "P" "B1" "1" 25 50 4 "LFP" "pouch" "today" "10/12/2026" = Except.ok b →
      ready_for_checkup (fun _ _ => true) b (10, 12, 2026) = none) :=
  claim_C10_next_diag "P" "B1" "1" 25 50 4 "LFP" "pouch" "10/12/2026" "01/29/2024"
    (by decide) (by decide) (fun _ _ => true) (10, 12, 2026)

/-- C6 (amended): a successful `assign_battery` preserves the invariants
as far as the target rack goes — it succeeds only when the unit's
temperature equals the rack's held temperature and its barcode was not
already resident there, so the target rack's resident list stays
duplicate-free and temperature-consistent; cross-rack uniqueness is not
enforced, and `load_batteries` simply appends its barcodes with no check
of either invariant. -/
theorem claim_C6_rack_ops (tc : TemperatureChamber) (b : Battery)
    (tc' : TemperatureChamber) (b' : Battery)
    (h : assign_battery tc b = Except.ok (tc', b'))
    (tc2 : TemperatureChamber) (l : List String) :
    b'.temperature = tc'.temperature ∧
    b.barcode ∉ tc.battery_list ∧
    tc'.battery_list = tc.battery_list ++ [b.barcode] ∧
    (tc.battery_list.Nodup → tc'.battery_list.Nodup) ∧
    tc'.temperature = tc.temperature ∧ tc'.name = tc.name ∧
    b'.storage_location = tc.name ∧
    load_batteries tc2 l = { tc2 with battery_list := tc2.battery_list ++ l } := by
  unfold assign_battery at h
  by_cases h1 : b.temperature ≠ tc.temperature
  · rw [if_pos h1] at h
    exact absurd h (by simp)
  · rw [if_neg h1] at h
    by_cases h2 : b.barcode ∈ tc.battery_list
    · rw [if_pos h2] at h
      exact absurd h (by simp)
    · rw [if_neg h2] at h
      have hp := Except.ok.inj h
      have htc : tc' = { tc with battery_list := tc.battery_list ++ [b.barcode] } :=
        (congrArg Prod.fst hp).symm
      have hb : b' = { b with storage_location := tc.name, current_location := tc.name } :=
        (congrArg Prod.snd hp).symm
      have hteq : b.temperature = tc.temperature := not_not.mp h1
      refine ⟨?_, h2, ?_, ?_, ?_, ?_, ?_, rfl⟩
      · rw [htc, hb]
        exact hteq
      · rw [htc]
      · intro hnd
        rw [htc]
        simp [List.nodup_append, hnd, h2]
      · rw [htc]
      · rw [htc]
      · rw [hb]

/-- Witness for C6 at a concrete instantiation: assigning `X` to the empty
rack `R2`. -/
theorem claim_C6_witness :
    ({ rackR2 with battery_list := ["X"] } : TemperatureChamber).battery_list =
        rackR2.battery_list ++ ["X"] ∧
    load_batteries rackR2 ["Z"] = { rackR2 with battery_list := ["Z"] } :=
  by
  have h := claim_C6_rack_ops rackR2 unitX
    { rackR2 with battery_list := ["X"] }
    { unitX with storage_location := "R2", current_location := "R2" }
    rfl rackR2 ["Z"]
  exact ⟨h.2.2.1, h.2.2.2.2.2.2.2⟩

/-! ### Helper lemmas about the registry primitives -/

theorem setChannelFields_isSome (cs : List Channel) (n st bc : String) :
    (setChannelFields cs n st bc).isSome = (findChannel cs n).isSome := by
  induction cs with
  | nil => rfl
  | cons c cs ih =>
    unfold setChannelFields findChannel
    rw [List.find?_cons]
    by_cases hc : c.channel = n
    · have hb : (c.channel == n) = true := by simpa using hc
      rw [if_pos hc, hb]
      rfl
    · have hb : (c.channel == n) = false := by simpa using hc
      rw [if_neg hc, hb]
      unfold findChannel at ih
      cases hrec : setChannelFields cs n st bc with
      | none => rw [hrec] at ih; simpa using ih
      | some cs2 => rw [hrec] at ih; simpa using ih

theorem findChannel_setChannelFields (cs : List Channel) (n st bc : String) (cs' : List Channel)
    (h : setChannelFields cs n st bc = some cs') :
    findChannel cs' n = (findChannel cs n).map (fun c => { c with state := st, battery := bc }) ∧
    ∀ m, m ≠ n → findChannel cs' m = findChannel cs m := by
  induction cs generalizing cs' with
  | nil => simp [setChannelFields] at h
  | cons c cs ih =>
    unfold setChannelFields at h
    by_cases hc : c.channel = n
    · rw [if_pos hc] at h
      have hcs' : cs' = { c with state := st, battery := bc } :: cs := (Option.some.inj h).symm
      subst hcs'
      constructor
      · unfold findChannel
        rw [List.find?_cons, List.find?_cons]
        simp [hc]
      · intro m hm
        unfold findChannel
        rw [List.find?_cons, List.find?_cons]
        have : (c.channel == m) = false := by
          simp only [beq_eq_false_iff_ne, ne_eq, hc]
          exact fun hx => hm hx.symm
        simp [this]
    · rw [if_neg hc] at h
      cases hrec : setChannelFields cs n st bc with
      | none => rw [hrec] at h; simp at h
      | some cs2 =>
        rw [hrec] at h
        have hcs' : cs' = c :: cs2 := (Option.some.inj h).symm
        subst hcs'
        obtain ⟨ih1, ih2⟩ := ih cs2 hrec
        constructor
        · unfold findChannel
          rw [List.find?_cons, List.find?_cons]
          have : (c.channel == n) = false := by simpa using hc
          rw [this]
          exact ih1
        · intro m hm
          unfold findChannel
          rw [List.find?_cons, List.find?_cons]
          cases hcm : c.channel == m with
          | true => rfl
          | false => exact ih2 m hm

theorem findBattery_updateBattery (bs : List Battery) (bc : String) (f : Battery → Battery)
    (hpres : ∀ b, (f b).barcode = b.barcode) (bc' : String) :
    findBattery (updateBattery bs bc f) bc' =
      (findBattery bs bc').map (fun b => if b.barcode = bc then f b else b) := by
  unfold findBattery updateBattery
  rw [List.find?_map]
  have hp : ((fun b : Battery => b.barcode == bc') ∘ (fun b => if b.barcode = bc then f b else b)) =
      (fun b : Battery => b.barcode == bc') := by
    funext b
    by_cases hb : b.barcode = bc
    · simp [hb, hpres]
    · simp [hb]
  rw [hp]

theorem findRack_updateRack (rs : List TemperatureChamber) (n : String)
    (f : TemperatureChamber → TemperatureChamber)
    (hpres : ∀ r, (f r).name = r.name) (m : String) :
    findRack (updateRack rs n f) m =
      (findRack rs m).map (fun r => if r.name = n then f r else r) := by
  unfold findRack updateRack
  rw [List.find?_map]
  have hp : ((fun r : TemperatureChamber => r.name == m) ∘ (fun r => if r.name = n then f r else r)) =
      (fun r : TemperatureChamber => r.name == m) := by
    funext r
    by_cases hr : r.name = n
    · simp [hr, hpres]
    · simp [hr]
  rw [hp]

theorem mem_removeFirst_of_ne (l : List String) (x y : String) (hne : y ≠ x) :
    (y ∈ removeFirst l x) ↔ y ∈ l := by
  induction l with
  | nil => simp [removeFirst]
  | cons a l ih =>
    unfold removeFirst
    by_cases ha : a = x
    · rw [if_pos ha]
      subst ha
      simp [hne, ih]
    · rw [if_neg ha]
      simp [ih]

theorem findChannel_setChannelFields_isSome (cs : List Channel) (n st bc : String)
    (cs' : List Channel) (h : setChannelFields cs n st bc = some cs') (m : String) :
    (findChannel cs' m).isSome = (findChannel cs m).isSome := by
  by_cases hm : m = n
  · subst hm
    rw [(findChannel_setChannelFields cs m st bc cs' h).1]
    simp
  · rw [(findChannel_setChannelFields cs n st bc cs' h).2 m hm]

/-! ### C1: the verification gate is all-or-nothing -/

/-- A load-checklist row whose commit can complete against a state: the
named channel exists, the barcode resolves to a battery, and that
battery's storage rack exists. -/
def LoadRowWF (st : DState) (r : VRow) : Prop :=
  (findChannel st.1.channels r.channel).isSome = true ∧
  ∃ b, findBattery st.2.1 r.barcode = some b ∧ (findRack st.2.2 b.storage_location).isSome = true

/-- A return-checklist row whose commit can complete against a state: in
addition the barcode is on the rack's on-loan list. -/
def ReturnRowWF (st : DState) (r : VRow) : Prop :=
  (findChannel st.1.channels r.channel).isSome = true ∧
  ∃ b, findBattery st.2.1 r.barcode = some b ∧
    ∃ rk, findRack st.2.2 b.storage_location = some rk ∧ r.barcode ∈ rk.battery_under_diagnostic

theorem verifyAndLoadStep_ok (ch : DiagnosticChamber) (bs : List Battery)
    (rs : List TemperatureChamber) (r : VRow) (b : Battery)
    (h1 : (findChannel ch.channels r.channel).isSome = true)
    (h2 : findBattery bs r.barcode = some b)
    (h3 : (findRack rs b.storage_location).isSome = true) :
    ∃ cs', setChannelFields ch.channels r.channel "loaded" r.barcode = some cs' ∧
      verifyAndLoadStep (ch, bs, rs) r =
        (none, ({ ch with channels := cs' },
                updateBattery bs r.barcode (fun bb => { bb with current_location := ch.name }),
                updateRack rs b.storage_location
                  (fun rk => { rk with battery_under_diagnostic :=
                    rk.battery_under_diagnostic ++ [r.barcode] }))) := by
  have hset : (setChannelFields ch.channels r.channel "loaded" r.barcode).isSome = true := by
    rw [setChannelFields_isSome]
    exact h1
  obtain ⟨cs', hcs'⟩ := Option.isSome_iff_exists.mp hset
  refine ⟨cs', hcs', ?_⟩
  obtain ⟨rk, hrk⟩ := Option.isSome_iff_exists.mp h3
  unfold verifyAndLoadStep
  simp only [hcs', h2, hrk]

theorem verifyAndLoadStep_channels (st : DState) (r : VRow) (m : String) (hm : m ≠ r.channel) :
    findChannel (verifyAndLoadStep st r).2.1.channels m = findChannel st.1.channels m := by
  unfold verifyAndLoadStep
  cases hset : setChannelFields st.1.channels r.channel "loaded" r.barcode with
  | none => rfl
  | some cs' =>
    have hother := (findChannel_setChannelFields _ _ _ _ _ hset).2 m hm
    dsimp only
    cases hfb : findBattery st.2.1 r.barcode with
    | none => exact hother
    | some b =>
      dsimp only
      cases hfr : findRack st.2.2 b.storage_location with
      | none => exact hother
      | some rk => exact hother

theorem runLoad_findChannel_frame (rows : List VRow) :
    ∀ (st : DState) (m : String), (∀ r ∈ rows, r.channel ≠ m) →
      findChannel (runVerifySteps verifyAndLoadStep st rows).2.1.channels m =
        findChannel st.1.channels m := by
  induction rows with
  | nil => intro st m _; rfl
  | cons r rest ih =>
    intro st m hm
    have hstep := verifyAndLoadStep_channels st r m (fun h => hm r (by simp) h.symm)
    unfold runVerifySteps
    cases h : verifyAndLoadStep st r with
    | mk e st' =>
      rw [h] at hstep
      cases e with
      | none =>
        have hrest := ih st' m (fun r' hr' => hm r' (by simp [hr']))
        simpa [hrest] using hstep
      | some e0 => simpa using hstep

theorem runLoad_commits (rows : List VRow) :
    ∀ (ch : DiagnosticChamber) (bs : List Battery) (rs : List TemperatureChamber),
      (∀ r ∈ rows, LoadRowWF (ch, bs, rs) r) →
      (rows.map (fun r => r.channel)).Nodup →
      (runVerifySteps verifyAndLoadStep (ch, bs, rs) rows).1 = none ∧
      ∀ r ∈ rows,
        findChannel (runVerifySteps verifyAndLoadStep (ch, bs, rs) rows).2.1.channels r.channel =
          (findChannel ch.channels r.channel).map
            (fun c => { c with state := "loaded", battery := r.barcode }) := by
  induction rows with
  | nil =>
    intro ch bs rs _ _
    exact ⟨rfl, by simp⟩
  | cons r rest ih =>
    intro ch bs rs hwf hnd
    obtain ⟨h1, b, h2, h3⟩ := hwf r (by simp)
    dsimp only at h1 h2 h3
    obtain ⟨cs', hset, hstep⟩ := verifyAndLoadStep_ok ch bs rs r b h1 h2 h3
    have hndc : (∀ x ∈ rest, ¬x.channel = r.channel) ∧
        (List.map (fun q : VRow => q.channel) rest).Nodup := by
      simpa using hnd
    have hwf' : ∀ r' ∈ rest,
        LoadRowWF ({ ch with channels := cs' },
          updateBattery bs r.barcode (fun bb => { bb with current_location := ch.name }),
          updateRack rs b.storage_location
            (fun rk => { rk with battery_under_diagnostic :=
              rk.battery_under_diagnostic ++ [r.barcode] })) r' := by
      intro r' hr'
      obtain ⟨g1, b', g2, g3⟩ := hwf r' (by simp [hr'])
      dsimp only at g1 g2 g3
      refine ⟨?_, ?_⟩
      · rw [findChannel_setChannelFields_isSome ch.channels r.channel "loaded" r.barcode cs' hset]
        exact g1
      · refine ⟨if b'.barcode = r.barcode then { b' with current_location := ch.name } else b', ?_, ?_⟩
        · rw [findBattery_updateBattery bs r.barcode
              (fun bb => { bb with current_location := ch.name }) (fun bb => rfl) r'.barcode, g2]
          rfl
        · have hsl : (if b'.barcode = r.barcode then { b' with current_location := ch.name } else b').storage_location
              = b'.storage_location := by
            by_cases hb : b'.barcode = r.barcode
            · simp [hb]
            · simp [hb]
          rw [hsl, findRack_updateRack rs b.storage_location
            (fun rk => { rk with battery_under_diagnostic := rk.battery_under_diagnostic ++ [r.barcode] })
            (fun rk => rfl) b'.storage_location]
          simpa using g3
    have hrun := ih { ch with channels := cs' }
      (updateBattery bs r.barcode (fun bb => { bb with current_location := ch.name }))
      (updateRack rs b.storage_location
        (fun rk => { rk with battery_under_diagnostic := rk.battery_under_diagnostic ++ [r.barcode] }))
      hwf' hndc.2
    constructor
    · unfold runVerifySteps
      rw [hstep]
      exact hrun.1
    · intro r'' hr''
      unfold runVerifySteps
      rw [hstep]
      rcases List.mem_cons.mp hr'' with hr0 | hrr

      · have hframe := runLoad_findChannel_frame rest
          ({ ch with channels := cs' },
           updateBattery bs r.barcode (fun bb => { bb with current_location := ch.name }),
           updateRack rs b.storage_location
             (fun rk => { rk with battery_under_diagnostic := rk.battery_under_diagnostic ++ [r.barcode] }))
          r.channel
          (fun r' hr' => hndc.1 r' hr')
        rw [hr0, hframe]
        exact (findChannel_setChannelFields _ _ _ _ _ hset).1
      · have hfin := hrun.2 r'' hrr
        rw [hfin]
        have hne : r''.channel ≠ r.channel := hndc.1 r'' hrr
        rw [(findChannel_setChannelFields _ _ _ _ _ hset).2 r''.channel hne]

theorem verifyAndReturnStep_ok (ch : DiagnosticChamber) (bs : List Battery)
    (rs : List TemperatureChamber) (r : VRow) (b : Battery) (rk : TemperatureChamber)
    (h1 : (findChannel ch.channels r.channel).isSome = true)
    (h2 : findBattery bs r.barcode = some b)
    (h3 : findRack rs b.storage_location = some rk)
    (h4 : r.barcode ∈ rk.battery_under_diagnostic) :
    ∃ cs', setChannelFields ch.channels r.channel "unoccupied" "" = some cs' ∧
      verifyAndReturnStep (ch, bs, rs) r =
        (none, ({ ch with channels := cs' },
                updateBattery bs r.barcode (fun bb => { bb with current_location := rk.name }),
                updateRack rs b.storage_location
                  (fun rk2 => { rk2 with battery_under_diagnostic := removeFirst rk2.battery_under_diagnostic r.barcode }))) := by
  have hset : (setChannelFields ch.channels r.channel "unoccupied" "").isSome = true := by
    rw [setChannelFields_isSome]
    exact h1
  obtain ⟨cs', hcs'⟩ := Option.isSome_iff_exists.mp hset
  refine ⟨cs', hcs', ?_⟩
  unfold verifyAndReturnStep
  simp only [hcs', h2, h3, if_pos h4]

theorem verifyAndReturnStep_channels (st : DState) (r : VRow) (m : String) (hm : m ≠ r.channel) :
    findChannel (verifyAndReturnStep st r).2.1.channels m = findChannel st.1.channels m := by
  unfold verifyAndReturnStep
  cases hset : setChannelFields st.1.channels r.channel "unoccupied" "" with
  | none => rfl
  | some cs' =>
    have hother := (findChannel_setChannelFields _ _ _ _ _ hset).2 m hm
    dsimp only
    cases hfb : findBattery st.2.1 r.barcode with
    | none => exact hother
    | some b =>
      dsimp only
      cases hfr : findRack st.2.2 b.storage_location with
      | none => exact hother
      | some rk =>
        dsimp only
        by_cases hmem : r.barcode ∈ rk.battery_under_diagnostic
        · rw [if_pos hmem]
          exact hother
        · rw [if_neg hmem]
          exact hother

theorem runReturn_findChannel_frame (rows : List VRow) :
    ∀ (st : DState) (m : String), (∀ r ∈ rows, r.channel ≠ m) →
      findChannel (runVerifySteps verifyAndReturnStep st rows).2.1.channels m =
        findChannel st.1.channels m := by
  induction rows with
  | nil => intro st m _; rfl
  | cons r rest ih =>
    intro st m hm
    have hstep := verifyAndReturnStep_channels st r m (fun h => hm r (by simp) h.symm)
    unfold runVerifySteps
    cases h : verifyAndReturnStep st r with
    | mk e st' =>
      rw [h] at hstep
      cases e with
      | none =>
        have hrest := ih st' m (fun r' hr' => hm r' (by simp [hr']))
        simpa [hrest] using hstep
      | some e0 => simpa using hstep

theorem runReturn_commits (rows : List VRow) :
    ∀ (ch : DiagnosticChamber) (bs : List Battery) (rs : List TemperatureChamber),
      (∀ r ∈ rows, ReturnRowWF (ch, bs, rs) r) →
      (rows.map (fun r => r.channel)).Nodup →
      (rows.map (fun r => r.barcode)).Nodup →
      (runVerifySteps verifyAndReturnStep (ch, bs, rs) rows).1 = none ∧
      ∀ r ∈ rows,
        findChannel (runVerifySteps verifyAndReturnStep (ch, bs, rs) rows).2.1.channels r.channel =
          (findChannel ch.channels r.channel).map
            (fun c => { c with state := "unoccupied", battery := "" }) := by
  induction rows with
  | nil =>
    intro ch bs rs _ _ _
    exact ⟨rfl, by simp⟩
  | cons r rest ih =>
    intro ch bs rs hwf hndch hndbc
    obtain ⟨h1, b, h2, rk, h3, h4⟩ := hwf r (by simp)
    dsimp only at h1 h2 h3
    obtain ⟨cs', hset, hstep⟩ := verifyAndReturnStep_ok ch bs rs r b rk h1 h2 h3 h4
    have hndc : (∀ x ∈ rest, ¬x.channel = r.channel) ∧
        (List.map (fun q : VRow => q.channel) rest).Nodup := by
      simpa using hndch
    have hndb : (∀ x ∈ rest, ¬x.barcode = r.barcode) ∧
        (List.map (fun q : VRow => q.barcode) rest).Nodup := by
      simpa using hndbc
    have hwf' : ∀ r' ∈ rest,
        ReturnRowWF ({ ch with channels := cs' },
          updateBattery bs r.barcode (fun bb => { bb with current_location := rk.name }),
          updateRack rs b.storage_location
            (fun rk2 => { rk2 with battery_under_diagnostic := removeFirst rk2.battery_under_diagnostic r.barcode })) r' := by
      intro r' hr'
      obtain ⟨g1, b', g2, rk', g3, g4⟩ := hwf r' (by simp [hr'])
      dsimp only at g1 g2 g3
      refine ⟨?_, ?_⟩
      · rw [findChannel_setChannelFields_isSome ch.channels r.channel "unoccupied" "" cs' hset]
        exact g1
      · refine ⟨if b'.barcode = r.barcode then { b' with current_location := rk.name } else b', ?_, ?_⟩
        · rw [findBattery_updateBattery bs r.barcode
              (fun bb => { bb with current_location := rk.name }) (fun bb => rfl) r'.barcode, g2]
          rfl
        · have hsl : (if b'.barcode = r.barcode then { b' with current_location := rk.name } else b').storage_location
              = b'.storage_location := by
            by_cases hb : b'.barcode = r.barcode
            · simp [hb]
            · simp [hb]
          rw [hsl]
          refine ⟨if rk'.name = b.storage_location then
            { rk' with battery_under_diagnostic := removeFirst rk'.battery_under_diagnostic r.barcode } else rk', ?_, ?_⟩
          · rw [findRack_updateRack rs b.storage_location
              (fun rk2 => { rk2 with battery_under_diagnostic := removeFirst rk2.battery_under_diagnostic r.barcode })
              (fun rk2 => rfl) b'.storage_location, g3]
            rfl
          · have hneq : r'.barcode ≠ r.barcode := hndb.1 r' hr'
            by_cases hrk : rk'.name = b.storage_location
            · rw [if_pos hrk]
              exact (mem_removeFirst_of_ne rk'.battery_under_diagnostic r.barcode r'.barcode hneq).mpr g4
            · rw [if_neg hrk]
              exact g4
    have hrun := ih { ch with channels := cs' }
      (updateBattery bs r.barcode (fun bb => { bb with current_location := rk.name }))
      (updateRack rs b.storage_location
        (fun rk2 => { rk2 with battery_under_diagnostic := removeFirst rk2.battery_under_diagnostic r.barcode }))
      hwf' hndc.2 hndb.2
    constructor
    · unfold runVerifySteps
      rw [hstep]
      exact hrun.1
    · intro r'' hr''
      unfold runVerifySteps
      rw [hstep]
      rcases List.mem_cons.mp hr'' with hr0 | hrr
      · have hframe := runReturn_findChannel_frame rest
          ({ ch with channels := cs' },
           updateBattery bs r.barcode (fun bb => { bb with current_location := rk.name }),
           updateRack rs b.storage_location
             (fun rk2 => { rk2 with battery_under_diagnostic := removeFirst rk2.battery_under_diagnostic r.barcode }))
          r.channel
          (fun r' hr' => hndc.1 r' hr')
        rw [hr0, hframe]
        exact (findChannel_setChannelFields _ _ _ _ _ hset).1
      · have hfin := hrun.2 r'' hrr
        rw [hfin]
        have hne : r''.channel ≠ r.channel := hndc.1 r'' hrr
        rw [(findChannel_setChannelFields _ _ _ _ _ hset).2 r''.channel hne]

/-- C1: verification commit is all-or-nothing on both gate paths.  If any
row's scanned barcode differs from its expected barcode, both
`verify_and_load` and `verify_and_return` fail with the mismatch error
carrying exactly the offending destinations (channels on load, barcodes
on return) and return the state completely unchanged — no channel, unit
or rack on-loan mutation.  If every row matches (and each row's channel,
battery and rack resolve, with distinct destinations, so the Python
commit loop raises no lookup error), the whole checklist is committed:
no error, and every row's channel ends `loaded` with the row's barcode
(resp. `unoccupied` and empty on return). -/
theorem claim_C1_all_or_nothing (ch : DiagnosticChamber) (bs : List Battery)
    (rs : List TemperatureChamber) (rows : List VRow) :
    (mismatchedRows rows ≠ [] →
      verify_and_load (ch, bs, rs) rows =
        (some (OpError.mismatch ((mismatchedRows rows).map (fun r => r.channel))), (ch, bs, rs)) ∧
      verify_and_return (ch, bs, rs) rows =
        (some (OpError.mismatch ((mismatchedRows rows).map (fun r => r.barcode))), (ch, bs, rs))) ∧
    (mismatchedRows rows = [] →
      ((∀ r ∈ rows, LoadRowWF (ch, bs, rs) r) →
       (rows.map (fun r => r.channel)).Nodup →
        (verify_and_load (ch, bs, rs) rows).1 = none ∧
        ∀ r ∈ rows, findChannel (verify_and_load (ch, bs, rs) rows).2.1.channels r.channel =
          (findChannel ch.channels r.channel).map
            (fun c => { c with state := "loaded", battery := r.barcode })) ∧
      ((∀ r ∈ rows, ReturnRowWF (ch, bs, rs) r) →
       (rows.map (fun r => r.channel)).Nodup →
       (rows.map (fun r => r.barcode)).Nodup →
        (verify_and_return (ch, bs, rs) rows).1 = none ∧
        ∀ r ∈ rows, findChannel (verify_and_return (ch, bs, rs) rows).2.1.channels r.channel =
          (findChannel ch.channels r.channel).map
            (fun c => { c with state := "unoccupied", battery := "" }))) := by
  constructor
  · intro h
    have hbad : (mismatchedRows rows).isEmpty = false := by
      cases hEmpty : (mismatchedRows rows).isEmpty
      · rfl
      · exact absurd (List.isEmpty_iff.mp hEmpty) h
    constructor
    · simp [verify_and_load, hbad]
    · simp [verify_and_return, hbad]
  · intro h
    have hL : verify_and_load (ch, bs, rs) rows =
        runVerifySteps verifyAndLoadStep (ch, bs, rs) rows := by
      simp [verify_and_load, h]
    have hR : verify_and_return (ch, bs, rs) rows =
        runVerifySteps verifyAndReturnStep (ch, bs, rs) rows := by
      simp [verify_and_return, h]
    constructor
    · intro hwf hnd
      rw [hL]
      exact runLoad_commits rows ch bs rs hwf hnd
    · intro hwf hndc hndb
      rw [hR]
      exact runReturn_commits rows ch bs rs hwf hndc hndb

/-- Single-channel station used by the C1 witness. -/
def stationW : DiagnosticChamber :=
  { name := "D", channels := [⟨"C1", "unoccupied", "any", ""⟩],
    in_operation := false, diagnostic_start_time := "" }

/-- Witness for C1 at concrete instantiations: one mismatching checklist
(scanned `Y` against expected `X`) fails with the offending channel and
leaves the state untouched; one matching checklist loads without error. -/
theorem claim_C1_witness :
    verify_and_load (stationW, [unitX], [rackR1]) [⟨"X", "C1", "Y"⟩] =
      (some (OpError.mismatch ["C1"]), (stationW, [unitX], [rackR1])) ∧
    (verify_and_load (stationW, [unitX], [rackR1]) [⟨"X", "C1", "X"⟩]).1 = none := by
  constructor
  · exact ((claim_C1_all_or_nothing stationW [unitX] [rackR1] [⟨"X", "C1", "Y"⟩]).1
      (by decide)).1
  · refine (((claim_C1_all_or_nothing stationW [unitX] [rackR1] [⟨"X", "C1", "X"⟩]).2
      (by decide)).1 ?_ (by decide)).1
    intro r hr
    rw [List.mem_singleton.mp hr]
    exact ⟨rfl, unitX, rfl, rfl⟩

/-! ### C4: start_channel_testing -/

/-- Occupants of the `loaded` channels, in channel order. -/
def loadedOccupants (cs : List Channel) : List String :=
  (cs.filter (fun c => c.state == "loaded")).map (fun c => c.battery)

theorem startBatteryUpdate_barcode (today : String) (b : Battery) :
    (startBatteryUpdate today b).barcode = b.barcode := rfl

/-- The channel half of the start commit loop: every loaded channel
becomes running, every other channel is untouched. -/
theorem startCommit_fst (today : String) (cs : List Channel) :
    ∀ bs : List Battery, (startCommit today cs bs).1 =
      cs.map (fun c => if c.state = "loaded" then { c with state := "running" } else c) := by
  induction cs with
  | nil => intro bs; rfl
  | cons c cs ih =>
    intro bs
    unfold startCommit
    by_cases hc : c.state = "loaded"
    · rw [if_pos hc]
      simp only [List.map_cons, if_pos hc, ih]
    · rw [if_neg hc]
      simp only [List.map_cons, if_neg hc, ih]

/-- The battery half of the start commit loop, under distinct loaded
occupants: every loaded occupant receives `startBatteryUpdate` once,
every other battery is untouched. -/
theorem startCommit_snd (today : String) (cs : List Channel) :
    ∀ bs : List Battery, (loadedOccupants cs).Nodup →
      (startCommit today cs bs).2 =
        bs.map (fun b => if b.barcode ∈ loadedOccupants cs then startBatteryUpdate today b else b) := by
  induction cs with
  | nil =>
    intro bs _
    simp [startCommit, loadedOccupants]
  | cons c cs ih =>
    intro bs hnd
    unfold startCommit
    by_cases hc : c.state = "loaded"
    · have hocc : loadedOccupants (c :: cs) = c.battery :: loadedOccupants cs := by
        simp [loadedOccupants, hc]
      rw [hocc] at hnd
      have hnotin : c.battery ∉ loadedOccupants cs := (List.nodup_cons.mp hnd).1
      rw [if_pos hc]
      dsimp only
      rw [ih (updateBattery bs c.battery (startBatteryUpdate today)) (List.nodup_cons.mp hnd).2]
      unfold updateBattery
      rw [List.map_map, hocc]
      apply List.map_congr_left
      intro b _
      dsimp only [Function.comp]
      by_cases hb : b.barcode = c.battery
      · rw [if_pos hb]
        have hmem : b.barcode ∈ c.battery :: loadedOccupants cs := by simp [hb]
        rw [if_pos hmem]
        have hnm : (startBatteryUpdate today b).barcode ∉ loadedOccupants cs := by
          rw [startBatteryUpdate_barcode, hb]
          exact hnotin
        rw [if_neg hnm]
      · rw [if_neg hb]
        by_cases hbm : b.barcode ∈ loadedOccupants cs
        · have hmem : b.barcode ∈ c.battery :: loadedOccupants cs := by simp [hbm]
          rw [if_pos hbm, if_pos hmem]
        · have hmem : b.barcode ∉ c.battery :: loadedOccupants cs := by simp [hb, hbm]
          rw [if_neg hbm, if_neg hmem]
    · have hocc : loadedOccupants (c :: cs) = loadedOccupants cs := by
        simp [loadedOccupants, hc]
      rw [if_neg hc]
      dsimp only
      rw [ih bs (hocc ▸ hnd), hocc]

/-- The pre-check loop returns no error exactly when no loaded channel's
occupant is already under diagnostic (given every loaded occupant
resolves in the registry). -/
theorem startCheck_none_iff (cs : List Channel) (bs : List Battery)
    (hres : ∀ c ∈ cs, c.state = "loaded" → (findBattery bs c.battery).isSome = true) :
    startCheck cs bs = none ↔
      ∀ c ∈ cs, c.state = "loaded" →
        ∀ b, findBattery bs c.battery = some b → b.under_diag = false := by
  induction cs with
  | nil => simp [startCheck]
  | cons c cs ih =>
    have hres' : ∀ c' ∈ cs, c'.state = "loaded" → (findBattery bs c'.battery).isSome = true :=
      fun c' hc' => hres c' (by simp [hc'])
    unfold startCheck
    by_cases hc : c.state = "loaded"
    · rw [if_pos hc]
      obtain ⟨b, hb⟩ := Option.isSome_iff_exists.mp (hres c (by simp) hc)
      rw [hb]
      dsimp only
      by_cases hud : b.under_diag
      · rw [if_pos hud]
        constructor
        · intro hcontra; exact absurd hcontra (by simp)
        · intro hall
          have := hall c (by simp) hc b hb
          rw [hud] at this
          exact absurd this (by simp)
      · rw [if_neg hud]
        rw [ih hres']
        constructor
        · intro hall c' hc' hld b' hb'
          rcases List.mem_cons.mp hc' with h0 | hmem
          · subst h0
            rw [hb'] at hb
            rw [Option.some.inj hb]
            exact Bool.not_eq_true _ ▸ (by simpa using hud)
          · exact hall c' hmem hld b' hb'
        · intro hall c' hmem hld b' hb'
          exact hall c' (by simp [hmem]) hld b' hb'
    · rw [if_neg hc]
      rw [ih hres']
      constructor
      · intro hall c' hc' hld b' hb'
        rcases List.mem_cons.mp hc' with h0 | hmem
        · subst h0
          exact absurd hld hc
        · exact hall c' hmem hld b' hb'
      · intro hall c' hmem hld b' hb'
        exact hall c' (by simp [hmem]) hld b' hb'

/-- C4: `start_channel_testing` fails iff the station is already
`in_operation` or some loaded channel's occupant is already
`under_diag`; on failure nothing is mutated (both raises precede the
commit loop); on success every loaded channel becomes `running`, the
station stamps the one shared `today` timestamp, and every started unit
receives `startBatteryUpdate` — `under_diag := true`, the start date
recorded, and the generated data-file and procedure-file names appended
to its histories.  Hypotheses: every loaded occupant resolves in the
registry (otherwise the Python pre-check raises a `KeyError` instead),
the station has at least one channel (the timestamp is written inside the
loop), and the loaded occupants are distinct. -/
theorem claim_C4_start (ch : DiagnosticChamber) (bs : List Battery) (today : String)
    (hres : ∀ c ∈ ch.channels, c.state = "loaded" → (findBattery bs c.battery).isSome = true)
    (hne : ch.channels ≠ [])
    (hnd : (loadedOccupants ch.channels).Nodup) :
    ((start_channel_testing ch bs today).1 ≠ none ↔
      (ch.in_operation = true ∨ ∃ c ∈ ch.channels, c.state = "loaded" ∧
        ∃ b, findBattery bs c.battery = some b ∧ b.under_diag = true)) ∧
    ((start_channel_testing ch bs today).1 ≠ none →
      (start_channel_testing ch bs today).2 = (ch, bs)) ∧
    ((start_channel_testing ch bs today).1 = none →
      (start_channel_testing ch bs today).2.1 =
        { ch with in_operation := true, diagnostic_start_time := today,
                  channels := ch.channels.map
                    (fun c => if c.state = "loaded" then { c with state := "running" } else c) } ∧
      (start_channel_testing ch bs today).2.2 =
        bs.map (fun b => if b.barcode ∈ loadedOccupants ch.channels
          then startBatteryUpdate today b else b)) := by
  have hiff := startCheck_none_iff ch.channels bs hres
  by_cases hop : ch.in_operation
  · have heq : start_channel_testing ch bs today =
        (some (OpError.stateError "Diagnostic Chamber is currently in operation"), ch, bs) := by
      unfold start_channel_testing
      rw [if_pos hop]
    rw [heq]
    refine ⟨⟨fun _ => Or.inl hop, fun _ => by simp⟩, fun _ => rfl, fun hcontra => absurd hcontra (by simp)⟩
  · unfold start_channel_testing
    rw [if_neg hop]
    cases hchk : startCheck ch.channels bs with
    | some e =>
      dsimp only
      refine ⟨?_, fun _ => rfl, fun hcontra => absurd hcontra (by simp)⟩
      constructor
      · intro _
        refine Or.inr ?_
        have hnall : ¬ (∀ c ∈ ch.channels, c.state = "loaded" →
            ∀ b, findBattery bs c.battery = some b → b.under_diag = false) := by
          intro hall
          rw [← hiff] at hall
          rw [hchk] at hall
          exact absurd hall (by simp)
        push_neg at hnall
        obtain ⟨c, hcmem, hld, b, hfind, hud⟩ := hnall
        exact ⟨c, hcmem, hld, b, hfind, Bool.not_eq_false b.under_diag ▸ hud⟩
      · intro _
        simp
    | none =>
      dsimp only
      have hempty : ch.channels.isEmpty = false := by
        cases hE : ch.channels.isEmpty
        · rfl
        · exact absurd (List.isEmpty_iff.mp hE) hne
      refine ⟨?_, fun hcontra => absurd rfl hcontra, fun _ => ⟨?_, ?_⟩⟩
      · constructor
        · intro hcontra
          exact absurd rfl hcontra
        · intro hOr
          rcases hOr with h | ⟨c, hcmem, hld, b, hfind, hud⟩
          · exact absurd h hop
          · have := hiff.mp hchk c hcmem hld b hfind
            rw [hud] at this
            exact absurd this (by simp)
      · rw [hempty]
        simp only [Bool.false_eq_true, if_false, startCommit_fst]
      · rw [startCommit_snd today ch.channels bs hnd]

/-- Station with one loaded channel occupied by `X`, used by the C4
witness. -/
def stationL : DiagnosticChamber :=
  { name := "D", channels := [⟨"C1", "loaded", "any", "X"⟩],
    in_operation := false, diagnostic_start_time := "" }

/-- Witness for C4 at a concrete instantiation: starting a one-channel
station with unit `X` loaded applies `startBatteryUpdate` to `X`. -/
theorem claim_C4_witness :
    (start_channel_testing stationL [unitX] "T").2.2 =
      [unitX].map (fun b => if b.barcode ∈ loadedOccupants stationL.channels
        then startBatteryUpdate "T" b else b) :=
  ((claim_C4_start stationL [unitX] "T"
      (fun c hc _ => by
        rw [List.mem_singleton.mp hc]
        rfl)
      (by decide) (by decide)).2.2 rfl).2

/-! ### C5: generic helper lemmas for the registry transition system -/

theorem any_set_congr {α : Type} (l : List α) (i : Nat) (x y : α) (p : α → Bool)
    (hy : l.get? i = some y) (hxy : p x = p y) : (l.set i x).any p = l.any p := by
  induction l generalizing i with
  | nil => simp at hy
  | cons a t ih =>
    cases i with
    | zero =>
      have hya : y = a := by simpa using hy.symm
      subst hya
      simp only [List.set, List.any_cons, hxy]
    | succ n =>
      simp only [List.set, List.any_cons]
      rw [ih n (by simpa using hy)]

theorem any_set_or {α : Type} (l : List α) (i : Nat) (x y : α) (p : α → Bool) (q : Bool)
    (hy : l.get? i = some y) (hxy : p x = (p y || q)) : (l.set i x).any p = (l.any p || q) := by
  induction l generalizing i with
  | nil => simp at hy
  | cons a t ih =>
    cases i with
    | zero =>
      have hya : y = a := by simpa using hy.symm
      subst hya
      simp only [List.set, List.any_cons, hxy]
      cases q <;> simp
    | succ n =>
      simp only [List.set, List.any_cons]
      rw [ih n (by simpa using hy), Bool.or_assoc]

theorem anyRunning_iff (chs : List DiagnosticChamber) (bc : String) :
    chs.any (fun ch => hasRunning ch.channels bc) = true ↔
      ∃ j, j < chs.length ∧ hasRunning (chs.getD j dummyChamber).channels bc = true := by
  rw [List.any_eq_true]
  constructor
  · rintro ⟨ch, hmem, hp⟩
    obtain ⟨j, hj, hget⟩ := List.mem_iff_getElem.mp hmem
    refine ⟨j, hj, ?_⟩
    rw [List.getD_eq_getElem chs dummyChamber hj, hget]
    exact hp
  · rintro ⟨j, hj, hp⟩
    refine ⟨chs.getD j dummyChamber, ?_, hp⟩
    rw [List.getD_eq_getElem chs dummyChamber hj]
    exact List.getElem_mem hj

theorem getD_set_ne {α : Type} (l : List α) (i j : Nat) (x d : α) (hne : i ≠ j) :
    (l.set i x).getD j d = l.getD j d := by
  rw [List.getD_eq_getElem?_getD, List.getD_eq_getElem?_getD, List.getElem?_set_ne hne]

theorem getD_set_self {α : Type} (l : List α) (i : Nat) (x d : α) (hi : i < l.length) :
    (l.set i x).getD i d = x := by
  rw [List.getD_eq_getElem?_getD, List.getElem?_set_self hi]
  rfl

theorem findBattery_of_nodup (bs : List Battery) (hnd : (bs.map Battery.barcode).Nodup)
    (b : Battery) (hb : b ∈ bs) : findBattery bs b.barcode = some b := by
  induction bs with
  | nil => simp at hb
  | cons a t ih =>
    rw [List.map_cons, List.nodup_cons] at hnd
    unfold findBattery
    rw [List.find?_cons]
    rcases List.mem_cons.mp hb with h0 | hmem
    · subst h0
      simp
    · have hne : (a.barcode == b.barcode) = false := by
        simp only [beq_eq_false_iff_ne, ne_eq]
        intro hcontra
        exact hnd.1 (hcontra ▸ List.mem_map_of_mem Battery.barcode hmem)
      rw [hne]
      exact ih hnd.2 hmem

/-- The battery view used by the invariant proofs: barcode and
under-diagnostic flag. -/
def bview (b : Battery) : String × Bool := (b.barcode, b.under_diag)

theorem map_updateBattery {α : Type} (view : Battery → α) (bs : List Battery) (bc : String)
    (f : Battery → Battery) :
    (updateBattery bs bc f).map view =
      bs.map (fun b => if b.barcode = bc then view (f b) else view b) := by
  unfold updateBattery
  rw [List.map_map]
  apply List.map_congr_left
  intro b _
  dsimp only [Function.comp]
  by_cases hb : b.barcode = bc
  · rw [if_pos hb, if_pos hb]
  · rw [if_neg hb, if_neg hb]

/-- Occupants of the `running` channels, in channel order. -/
def runningOccupants (cs : List Channel) : List String :=
  (cs.filter (fun c => c.state == "running")).map (fun c => c.battery)

theorem string_beq_comm (a b : String) : (a == b) = (b == a) := by
  cases h : b == a
  · simp only [beq_eq_false_iff_ne] at h
    simp only [beq_eq_false_iff_ne]
    exact fun hx => h hx.symm
  · simp only [beq_iff_eq] at h
    simp [h]

theorem contains_runningOccupants (cs : List Channel) (bc : String) :
    (runningOccupants cs).contains bc = hasRunning cs bc := by
  induction cs with
  | nil => rfl
  | cons c cs ih =>
    unfold runningOccupants hasRunning at ih ⊢
    rw [List.any_cons]
    by_cases hc : c.state = "running"
    · have hb : (c.state == "running") = true := by simpa using hc
      rw [List.filter_cons_of_pos (by simpa using hc), List.map_cons, List.contains_cons, ih, hb,
        Bool.true_and, string_beq_comm]
    · have hb : (c.state == "running") = false := by simpa using hc
      rw [List.filter_cons_of_neg (by simpa using hc), ih, hb, Bool.false_and, Bool.false_or]

theorem hasRunning_setChannelFields (cs : List Channel) (n ns x : String) (cs' : List Channel)
    (h : setChannelFields cs n ns x = some cs') (hns : ns ≠ "running")
    (hfirst : stateOfFirst cs n ≠ some "running") (bc : String) :
    hasRunning cs' bc = hasRunning cs bc := by
  induction cs generalizing cs' with
  | nil => simp [setChannelFields] at h
  | cons c cs ih =>
    unfold setChannelFields at h
    by_cases hc : c.channel = n
    · rw [if_pos hc] at h
      have hcs' : cs' = { c with state := ns, battery := x } :: cs := (Option.some.inj h).symm
      subst hcs'
      have hcstate : c.state ≠ "running" := by
        intro hcr
        apply hfirst
        unfold stateOfFirst findChannel
        rw [List.find?_cons]
        have hcb : (c.channel == n) = true := by simpa using hc
        rw [hcb]
        simp [hcr]
      unfold hasRunning
      rw [List.any_cons, List.any_cons]
      have h1 : (ns == "running") = false := by simpa using hns
      have h2 : (c.state == "running") = false := by simpa using hcstate
      simp only [h1, h2, Bool.false_and, Bool.false_or]
    · rw [if_neg hc] at h
      cases hrec : setChannelFields cs n ns x with
      | none => rw [hrec] at h; simp at h
      | some cs2 =>
        rw [hrec] at h
        have hcs' : cs' = c :: cs2 := (Option.some.inj h).symm
        subst hcs'
        have hfirst' : stateOfFirst cs n ≠ some "running" := by
          intro hx
          apply hfirst
          unfold stateOfFirst findChannel
          rw [List.find?_cons]
          have hcb : (c.channel == n) = false := by simpa using hc
          rw [hcb]
          exact hx
        unfold hasRunning
        rw [List.any_cons, List.any_cons]
        unfold hasRunning at ih
        rw [ih cs2 hrec hfirst']

theorem verifyAndLoadStep_channels_cases (st : DState) (r : VRow) :
    (verifyAndLoadStep st r).2.1.channels = st.1.channels ∨
    ∃ cs', setChannelFields st.1.channels r.channel "loaded" r.barcode = some cs' ∧
      (verifyAndLoadStep st r).2.1.channels = cs' := by
  unfold verifyAndLoadStep
  cases hset : setChannelFields st.1.channels r.channel "loaded" r.barcode with
  | none => exact Or.inl rfl
  | some cs' =>
    dsimp only
    refine Or.inr ⟨cs', rfl, ?_⟩
    cases hfb : findBattery st.2.1 r.barcode with
    | none => rfl
    | some b =>
      dsimp only
      cases hfr : findRack st.2.2 b.storage_location with
      | none => rfl
      | some rk => rfl

theorem verifyAndReturnStep_channels_cases (st : DState) (r : VRow) :
    (verifyAndReturnStep st r).2.1.channels = st.1.channels ∨
    ∃ cs', setChannelFields st.1.channels r.channel "unoccupied" "" = some cs' ∧
      (verifyAndReturnStep st r).2.1.channels = cs' := by
  unfold verifyAndReturnStep
  cases hset : setChannelFields st.1.channels r.channel "unoccupied" "" with
  | none => exact Or.inl rfl
  | some cs' =>
    dsimp only
    refine Or.inr ⟨cs', rfl, ?_⟩
    cases hfb : findBattery st.2.1 r.barcode with
    | none => rfl
    | some b =>
      dsimp only
      cases hfr : findRack st.2.2 b.storage_location with
      | none => rfl
      | some rk =>
        dsimp only
        by_cases hmem : r.barcode ∈ rk.battery_under_diagnostic
        · rw [if_pos hmem]
        · rw [if_neg hmem]

theorem verifyAndLoadStep_bview (st : DState) (r : VRow) :
    ((verifyAndLoadStep st r).2.2.1).map bview = (st.2.1).map bview := by
  unfold verifyAndLoadStep
  cases hset : setChannelFields st.1.channels r.channel "loaded" r.barcode with
  | none => rfl
  | some cs' =>
    dsimp only
    cases hfb : findBattery st.2.1 r.barcode with
    | none => rfl
    | some b =>
      dsimp only
      cases hfr : findRack st.2.2 b.storage_location with
      | none => rfl
      | some rk =>
        dsimp only
        rw [map_updateBattery bview st.2.1 r.barcode
          (fun bb => { bb with current_location := st.1.name })]
        apply List.map_congr_left
        intro b0 _
        by_cases hb : b0.barcode = r.barcode
        · rw [if_pos hb]
          rfl
        · rw [if_neg hb]

theorem verifyAndReturnStep_bview (st : DState) (r : VRow) :
    ((verifyAndReturnStep st r).2.2.1).map bview = (st.2.1).map bview := by
  unfold verifyAndReturnStep
  cases hset : setChannelFields st.1.channels r.channel "unoccupied" "" with
  | none => rfl
  | some cs' =>
    dsimp only
    cases hfb : findBattery st.2.1 r.barcode with
    | none => rfl
    | some b =>
      dsimp only
      cases hfr : findRack st.2.2 b.storage_location with
      | none => rfl
      | some rk =>
        dsimp only
        by_cases hmem : r.barcode ∈ rk.battery_under_diagnostic
        · rw [if_pos hmem]
          dsimp only
          rw [map_updateBattery bview st.2.1 r.barcode
            (fun bb => { bb with current_location := rk.name })]
          apply List.map_congr_left
          intro b0 _
          by_cases hb : b0.barcode = r.barcode
          · rw [if_pos hb]
            rfl
          · rw [if_neg hb]
        · rw [if_neg hmem]

theorem runLoad_view (rows : List VRow) :
    ∀ st : DState, (∀ r ∈ rows, stateOfFirst st.1.channels r.channel ≠ some "running") →
      (∀ bc, hasRunning (runVerifySteps verifyAndLoadStep st rows).2.1.channels bc
        = hasRunning st.1.channels bc) ∧
      ((runVerifySteps verifyAndLoadStep st rows).2.2.1).map bview = (st.2.1).map bview := by
  induction rows with
  | nil => exact fun st _ => ⟨fun bc => rfl, rfl⟩
  | cons r rest ih =>
    intro st hg
    have hcases := verifyAndLoadStep_channels_cases st r
    have hbv := verifyAndLoadStep_bview st r
    have hHR : ∀ bc, hasRunning (verifyAndLoadStep st r).2.1.channels bc
        = hasRunning st.1.channels bc := by
      rcases hcases with hsame | ⟨cs', hset, hres⟩
      · intro bc; rw [hsame]
      · intro bc
        rw [hres]
        exact hasRunning_setChannelFields _ _ _ _ _ hset (by decide) (hg r (by simp)) bc
    have hSOF : ∀ m, stateOfFirst st.1.channels m ≠ some "running" →
        stateOfFirst (verifyAndLoadStep st r).2.1.channels m ≠ some "running" := by
      rcases hcases with hsame | ⟨cs', hset, hres⟩
      · intro m hm; rw [hsame]; exact hm
      · intro m hm
        rw [hres]
        by_cases hmr : m = r.channel
        · subst hmr
          unfold stateOfFirst
          rw [(findChannel_setChannelFields _ _ _ _ _ hset).1]
          cases findChannel st.1.channels r.channel
          · simp
          · simp
        · unfold stateOfFirst
          rw [(findChannel_setChannelFields _ _ _ _ _ hset).2 m hmr]
          exact hm
    unfold runVerifySteps
    cases h : verifyAndLoadStep st r with
    | mk e st' =>
      rw [h] at hHR hbv hSOF
      cases e with
      | some e0 => exact ⟨hHR, hbv⟩
      | none =>
        have hg' : ∀ r' ∈ rest, stateOfFirst st'.1.channels r'.channel ≠ some "running" :=
          fun r' hr' => hSOF r'.channel (hg r' (by simp [hr']))
        obtain ⟨ha, hb⟩ := ih st' hg'
        exact ⟨fun bc => (ha bc).trans (hHR bc), hb.trans hbv⟩

theorem runReturn_view (rows : List VRow) :
    ∀ st : DState, (∀ r ∈ rows, stateOfFirst st.1.channels r.channel ≠ some "running") →
      (∀ bc, hasRunning (runVerifySteps verifyAndReturnStep st rows).2.1.channels bc
        = hasRunning st.1.channels bc) ∧
      ((runVerifySteps verifyAndReturnStep st rows).2.2.1).map bview = (st.2.1).map bview := by
  induction rows with
  | nil => exact fun st _ => ⟨fun bc => rfl, rfl⟩
  | cons r rest ih =>
    intro st hg
    have hcases := verifyAndReturnStep_channels_cases st r
    have hbv := verifyAndReturnStep_bview st r
    have hHR : ∀ bc, hasRunning (verifyAndReturnStep st r).2.1.channels bc
        = hasRunning st.1.channels bc := by
      rcases hcases with hsame | ⟨cs', hset, hres⟩
      · intro bc; rw [hsame]
      · intro bc
        rw [hres]
        exact hasRunning_setChannelFields _ _ _ _ _ hset (by decide) (hg r (by simp)) bc
    have hSOF : ∀ m, stateOfFirst st.1.channels m ≠ some "running" →
        stateOfFirst (verifyAndReturnStep st r).2.1.channels m ≠ some "running" := by
      rcases hcases with hsame | ⟨cs', hset, hres⟩
      · intro m hm; rw [hsame]; exact hm
      · intro m hm
        rw [hres]
        by_cases hmr : m = r.channel
        · subst hmr
          unfold stateOfFirst
          rw [(findChannel_setChannelFields _ _ _ _ _ hset).1]
          cases findChannel st.1.channels r.channel
          · simp
          · simp
        · unfold stateOfFirst
          rw [(findChannel_setChannelFields _ _ _ _ _ hset).2 m hmr]
          exact hm
    unfold runVerifySteps
    cases h : verifyAndReturnStep st r with
    | mk e st' =>
      rw [h] at hHR hbv hSOF
      cases e with
      | some e0 => exact ⟨hHR, hbv⟩
      | none =>
        have hg' : ∀ r' ∈ rest, stateOfFirst st'.1.channels r'.channel ≠ some "running" :=
          fun r' hr' => hSOF r'.channel (hg r' (by simp [hr']))
        obtain ⟨ha, hb⟩ := ih st' hg'
        exact ⟨fun bc => (ha bc).trans (hHR bc), hb.trans hbv⟩

theorem startCommit_bview (today : String) (cs : List Channel) :
    ∀ bs : List Battery, ((startCommit today cs bs).2).map bview =
      bs.map (fun b => (b.barcode, b.under_diag || (loadedOccupants cs).contains b.barcode)) := by
  induction cs with
  | nil =>
    intro bs
    simp [startCommit, loadedOccupants, bview]
  | cons c cs ih =>
    intro bs
    unfold startCommit
    by_cases hc : c.state = "loaded"
    · rw [if_pos hc]
      dsimp only
      rw [ih (updateBattery bs c.battery (startBatteryUpdate today))]
      rw [map_updateBattery _ bs c.battery (startBatteryUpdate today)]
      have hocc : loadedOccupants (c :: cs) = c.battery :: loadedOccupants cs := by
        simp [loadedOccupants, hc]
      rw [hocc]
      apply List.map_congr_left
      intro b _
      by_cases hb : b.barcode = c.battery
      · rw [if_pos hb]
        have hcb : (b.barcode == c.battery) = true := by simpa using hb
        simp only [startBatteryUpdate, List.contains_cons, hcb, bview]
        simp [hb]
      · rw [if_neg hb]
        have hcb : (b.barcode == c.battery) = false := by simpa using hb
        simp [List.contains_cons, hcb, hb]
    · rw [if_neg hc]
      dsimp only
      rw [ih bs]
      have hocc : loadedOccupants (c :: cs) = loadedOccupants cs := by
        simp [loadedOccupants, hc]
      rw [hocc]

theorem hasRunning_start_map (cs : List Channel) (bc : String) :
    hasRunning (cs.map (fun c => if c.state = "loaded" then { c with state := "running" } else c)) bc
      = (hasRunning cs bc || (loadedOccupants cs).contains bc) := by
  induction cs with
  | nil => rfl
  | cons c cs ih =>
    unfold hasRunning at ih ⊢
    rw [List.map_cons, List.any_cons, List.any_cons, ih]
    by_cases hc : c.state = "loaded"
    · rw [if_pos hc]
      have hocc : loadedOccupants (c :: cs) = c.battery :: loadedOccupants cs := by
        simp [loadedOccupants, hc]
      rw [hocc, List.contains_cons]
      have h1 : (c.state == "running") = false := by simp [hc]
      rw [h1, string_beq_comm bc c.battery]
      simp only [Bool.false_and, Bool.false_or]
      have h2 : (("running" : String) == "running") = true := by decide
      rw [h2, Bool.true_and]
      simp [Bool.or_comm, Bool.or_left_comm, Bool.or_assoc]
    · rw [if_neg hc]
      have hocc : loadedOccupants (c :: cs) = loadedOccupants cs := by
        simp [loadedOccupants, hc]
      rw [hocc, Bool.or_assoc]

theorem hasRunning_finish_map (cs : List Channel) (bc : String) :
    hasRunning (cs.map (fun c => if c.state = "running" then { c with state := "completed" } else c)) bc
      = false := by
  induction cs with
  | nil => rfl
  | cons c cs ih =>
    unfold hasRunning at ih ⊢
    rw [List.map_cons, List.any_cons, ih]
    by_cases hc : c.state = "running"
    · rw [if_pos hc]
      simp
    · rw [if_neg hc]
      have h1 : (c.state == "running") = false := by simpa using hc
      simp [h1]

theorem finishCommit_none (cs : List Channel) :
    ∀ (bs bs' : List Battery) (cs' : List Channel),
      finishCommit cs bs = (none, cs', bs') →
      cs' = cs.map (fun c => if c.state = "running" then { c with state := "completed" } else c) ∧
      bs'.map bview =
        bs.map (fun b => (b.barcode, b.under_diag && !((runningOccupants cs).contains b.barcode))) := by
  induction cs with
  | nil =>
    intro bs bs' cs' h
    unfold finishCommit at h
    have hcs : cs' = [] := (congrArg (fun p => p.2.1) h).symm
    have hbs : bs' = bs := (congrArg (fun p => p.2.2) h).symm
    subst hcs
    subst hbs
    simp [runningOccupants, bview]
  | cons c cs ih =>
    intro bs bs' cs' h
    unfold finishCommit at h
    by_cases hc : c.state = "running"
    · rw [if_pos hc] at h
      cases hfb : findBattery bs c.battery with
      | none =>
        rw [hfb] at h
        exact absurd (congrArg Prod.fst h) (by simp)
      | some b =>
        rw [hfb] at h
        dsimp only at h
        cases hrec : finishCommit cs (updateBattery bs c.battery finishBatteryUpdate) with
        | mk e rest =>
          rw [hrec] at h
          have he : e = none := congrArg Prod.fst h
          have hcs : cs' = { c with state := "completed" } :: rest.1 :=
            (congrArg (fun p => p.2.1) h).symm
          have hbs : bs' = rest.2 := (congrArg (fun p => p.2.2) h).symm
          subst he
          obtain ⟨ih1, ih2⟩ := ih (updateBattery bs c.battery finishBatteryUpdate) rest.2 rest.1
            (by rw [hrec])
          constructor
          · rw [hcs, ih1, List.map_cons, if_pos hc]
          · rw [hbs, ih2, map_updateBattery _ bs c.battery finishBatteryUpdate]
            have hocc : runningOccupants (c :: cs) = c.battery :: runningOccupants cs := by
              simp [runningOccupants, hc]
            rw [hocc]
            apply List.map_congr_left
            intro b0 _
            by_cases hb : b0.barcode = c.battery
            · rw [if_pos hb]
              have hcb : (b0.barcode == c.battery) = true := by simpa using hb
              simp only [finishBatteryUpdate, List.contains_cons, hcb, bview]
              simp [hb]
            · rw [if_neg hb]
              have hcb : (b0.barcode == c.battery) = false := by simpa using hb
              simp [List.contains_cons, hcb, hb]
    · rw [if_neg hc] at h
      cases hrec : finishCommit cs bs with
      | mk e rest =>
        rw [hrec] at h
        have he : e = none := congrArg Prod.fst h
        have hcs : cs' = c :: rest.1 := (congrArg (fun p => p.2.1) h).symm
        have hbs : bs' = rest.2 := (congrArg (fun p => p.2.2) h).symm
        subst he
        obtain ⟨ih1, ih2⟩ := ih bs rest.2 rest.1 (by rw [hrec])
        have hocc : runningOccupants (c :: cs) = runningOccupants cs := by
          simp [runningOccupants, hc]
        constructor
        · rw [hcs, ih1, List.map_cons, if_neg hc]
        · rw [hbs, ih2, hocc]

theorem startCheck_none_found (cs : List Channel) (bs : List Battery)
    (h : startCheck cs bs = none) :
    ∀ c ∈ cs, c.state = "loaded" →
      ∃ b, findBattery bs c.battery = some b ∧ b.under_diag = false := by
  induction cs with
  | nil => simp
  | cons c cs ih =>
    unfold startCheck at h
    by_cases hc : c.state = "loaded"
    · rw [if_pos hc] at h
      cases hfb : findBattery bs c.battery with
      | none =>
        rw [hfb] at h
        simp at h
      | some b =>
        rw [hfb] at h
        dsimp only at h
        by_cases hud : b.under_diag
        · rw [if_pos hud] at h
          simp at h
        · rw [if_neg hud] at h
          intro c' hc' hld
          rcases List.mem_cons.mp hc' with h0 | hmem
          · subst h0
            exact ⟨b, hfb, by simpa using hud⟩
          · exact ih h c' hmem hld
    · rw [if_neg hc] at h
      intro c' hc' hld
      rcases List.mem_cons.mp hc' with h0 | hmem
      · subst h0
        exact absurd hld hc
      · exact ih h c' hmem hld

theorem getD_of_get? {α : Type} (l : List α) (i : Nat) (x d : α) (h : l.get? i = some x) :
    l.getD i d = x := by
  rw [List.getD_eq_getElem?_getD, ← List.get?_eq_getElem?, h]
  rfl

theorem lt_length_of_get? {α : Type} (l : List α) (i : Nat) (x : α) (h : l.get? i = some x) :
    i < l.length := by
  by_contra hcontra
  rw [List.get?_eq_none.mpr (Nat.le_of_not_lt hcontra)] at h
  exact absurd h (by simp)

theorem mem_loadedOccupants (cs : List Channel) (bc : String) :
    bc ∈ loadedOccupants cs ↔ ∃ c ∈ cs, c.state = "loaded" ∧ c.battery = bc := by
  unfold loadedOccupants
  simp only [List.mem_map, List.mem_filter, beq_iff_eq]
  constructor
  · rintro ⟨c, ⟨hmem, hst⟩, hbc⟩
    exact ⟨c, hmem, hst, hbc⟩
  · rintro ⟨c, hmem, hst, hbc⟩
    exact ⟨c, ⟨hmem, hst⟩, hbc⟩

/-- Barcode projection of the battery view. -/
theorem map_barcode_of_map_bview (bs bs' : List Battery) (g : Battery → String × Bool)
    (hg : ∀ b, (g b).1 = b.barcode)
    (h : bs'.map bview = bs.map g) :
    bs'.map Battery.barcode = bs.map Battery.barcode := by
  have h1 := congrArg (List.map Prod.fst) h
  rw [List.map_map, List.map_map] at h1
  have h2 : (Prod.fst ∘ g) = Battery.barcode := by
    funext b
    exact hg b
  rw [h2] at h1
  have h3 : (Prod.fst ∘ bview) = Battery.barcode := rfl
  rw [h3] at h1
  exact h1

/-- Consistency transfer when every chamber position keeps its running
set pointwise and the battery view is unchanged. -/
theorem consistent_of_pointwise (s s' : Registry)
    (hlen : s'.chambers.length = s.chambers.length)
    (hHR : ∀ j, j < s.chambers.length → ∀ bc,
      hasRunning (s'.chambers.getD j dummyChamber).channels bc
        = hasRunning (s.chambers.getD j dummyChamber).channels bc)
    (hBV : s'.batteries.map bview = s.batteries.map bview)
    (hs : Consistent s) : Consistent s' := by
  obtain ⟨hnd, hinv, hcross⟩ := hs
  have hOR : ∀ bc, occupiesRunning s' bc = occupiesRunning s bc := by
    intro bc
    unfold occupiesRunning
    cases hocc : s.chambers.any (fun ch => hasRunning ch.channels bc) with
    | false =>
      cases hocc' : s'.chambers.any (fun ch => hasRunning ch.channels bc) with
      | false => rfl
      | true =>
        obtain ⟨j, hj, hp⟩ := (anyRunning_iff _ _).mp hocc'
        rw [hlen] at hj
        rw [hHR j hj] at hp
        have hx := (anyRunning_iff _ _).mpr ⟨j, hj, hp⟩
        rw [hocc] at hx
        exact absurd hx (by simp)
    | true =>
      obtain ⟨j, hj, hp⟩ := (anyRunning_iff _ _).mp hocc
      rw [← hHR j hj] at hp
      exact (anyRunning_iff _ _).mpr ⟨j, hlen ▸ hj, hp⟩
  refine ⟨?_, ?_, ?_⟩
  · rw [map_barcode_of_map_bview s.batteries s'.batteries bview (fun b => rfl) hBV]
    exact hnd
  · intro b' hb'
    have hmem : bview b' ∈ s'.batteries.map bview := List.mem_map_of_mem bview hb'
    rw [hBV] at hmem
    obtain ⟨b, hbmem, hview⟩ := List.mem_map.mp hmem
    have hbc : b.barcode = b'.barcode := congrArg Prod.fst hview
    have hud : b.under_diag = b'.under_diag := congrArg Prod.snd hview
    rw [← hud, ← hbc, hinv b hbmem, hOR b.barcode]
  · intro b' hb' j hj k hk
    have hmem : bview b' ∈ s'.batteries.map bview := List.mem_map_of_mem bview hb'
    rw [hBV] at hmem
    obtain ⟨b, hbmem, hview⟩ := List.mem_map.mp hmem
    have hbc : b.barcode = b'.barcode := congrArg Prod.fst hview
    rw [hlen] at hj hk
    rw [hHR j hj, hHR k hk, ← hbc]
    exact hcross b hbmem j hj k hk

theorem applyLoad_preserves (s s' : Registry) (i : Nat) (rows : List VRow)
    (ch : DiagnosticChamber) (hch : s.chambers.get? i = some ch)
    (hsafe : LoadRowsSafe ch rows)
    (h : applyLoad s i rows = some s')
    (hs : Consistent s) : Consistent s' := by
  unfold applyLoad at h
  rw [hch] at h
  dsimp only at h
  cases hbad : (mismatchedRows rows).isEmpty with
  | false =>
    have hfail : verify_and_load (ch, s.batteries, s.racks) rows =
        (some (OpError.mismatch ((mismatchedRows rows).map
          (fun r => r.channel))), (ch, s.batteries, s.racks)) ∨
        verify_and_load (ch, s.batteries, s.racks) rows =
        (some (OpError.mismatch ((mismatchedRows rows).map
          (fun r => r.barcode))), (ch, s.batteries, s.racks)) := by
      unfold verify_and_load
      simp [hbad]
    rcases hfail with hfail | hfail <;> rw [hfail] at h <;> simp at h
  | true =>
    have hnil : mismatchedRows rows = [] := List.isEmpty_iff.mp hbad
    have hL : verify_and_load (ch, s.batteries, s.racks) rows =
        runVerifySteps verifyAndLoadStep (ch, s.batteries, s.racks) rows := by
      simp [verify_and_load, hnil]
    rw [hL] at h
    have hguard : ∀ r ∈ rows,
        stateOfFirst (ch, s.batteries, s.racks).1.channels r.channel ≠ some "running" := by
      intro r hr hx
      rw [hsafe r hr] at hx
      exact absurd (Option.some.inj hx) (by decide)
    obtain ⟨hHRi, hBV⟩ := runLoad_view rows (ch, s.batteries, s.racks) hguard
    cases hrun : runVerifySteps verifyAndLoadStep (ch, s.batteries, s.racks) rows with
    | mk e st2 =>
      rw [hrun] at h hHRi hBV
      cases e with
      | some e0 => simp at h
      | none =>
        obtain ⟨ch2, bs2, rs2⟩ := st2
        dsimp only at h hHRi hBV
        have hs' : s' = ⟨bs2, s.chambers.set i ch2, rs2⟩ := (Option.some.inj h).symm
        subst hs'
        refine consistent_of_pointwise s _ (by rw [List.length_set]) ?_ hBV hs
        intro j hj bc
        by_cases hji : j = i
        · subst hji
          rw [getD_set_self s.chambers j ch2 dummyChamber (lt_length_of_get? _ _ _ hch)]
          rw [getD_of_get? s.chambers j ch dummyChamber hch]
          exact hHRi bc
        · rw [getD_set_ne s.chambers i j ch2 dummyChamber (fun hx => hji hx.symm)]

theorem applyReturn_preserves (s s' : Registry) (i : Nat) (rows : List VRow)
    (ch : DiagnosticChamber) (hch : s.chambers.get? i = some ch)
    (hsafe : ReturnRowsSafe ch rows)
    (h : applyReturn s i rows = some s')
    (hs : Consistent s) : Consistent s' := by
  unfold applyReturn at h
  rw [hch] at h
  dsimp only at h
  cases hbad : (mismatchedRows rows).isEmpty with
  | false =>
    have hfail : verify_and_return (ch, s.batteries, s.racks) rows =
        (some (OpError.mismatch ((mismatchedRows rows).map
          (fun r => r.channel))), (ch, s.batteries, s.racks)) ∨
        verify_and_return (ch, s.batteries, s.racks) rows =
        (some (OpError.mismatch ((mismatchedRows rows).map
          (fun r => r.barcode))), (ch, s.batteries, s.racks)) := by
      unfold verify_and_return
      simp [hbad]
    rcases hfail with hfail | hfail <;> rw [hfail] at h <;> simp at h
  | true =>
    have hnil : mismatchedRows rows = [] := List.isEmpty_iff.mp hbad
    have hL : verify_and_return (ch, s.batteries, s.racks) rows =
        runVerifySteps verifyAndReturnStep (ch, s.batteries, s.racks) rows := by
      simp [verify_and_return, hnil]
    rw [hL] at h
    have hguard : ∀ r ∈ rows,
        stateOfFirst (ch, s.batteries, s.racks).1.channels r.channel ≠ some "running" := by
      intro r hr hx
      rw [hsafe r hr] at hx
      exact absurd (Option.some.inj hx) (by decide)
    obtain ⟨hHRi, hBV⟩ := runReturn_view rows (ch, s.batteries, s.racks) hguard
    cases hrun : runVerifySteps verifyAndReturnStep (ch, s.batteries, s.racks) rows with
    | mk e st2 =>
      rw [hrun] at h hHRi hBV
      cases e with
      | some e0 => simp at h
      | none =>
        obtain ⟨ch2, bs2, rs2⟩ := st2
        dsimp only at h hHRi hBV
        have hs' : s' = ⟨bs2, s.chambers.set i ch2, rs2⟩ := (Option.some.inj h).symm
        subst hs'
        refine consistent_of_pointwise s _ (by rw [List.length_set]) ?_ hBV hs
        intro j hj bc
        by_cases hji : j = i
        · subst hji
          rw [getD_set_self s.chambers j ch2 dummyChamber (lt_length_of_get? _ _ _ hch)]
          rw [getD_of_get? s.chambers j ch dummyChamber hch]
          exact hHRi bc
        · rw [getD_set_ne s.chambers i j ch2 dummyChamber (fun hx => hji hx.symm)]

theorem applyStart_preserves (s s' : Registry) (i : Nat) (today : String)
    (h : applyStart s i today = some s') (hs : Consistent s) : Consistent s' := by
  unfold applyStart at h
  cases hch : s.chambers.get? i with
  | none =>
    rw [hch] at h
    simp at h
  | some ch =>
    rw [hch] at h
    dsimp only at h
    unfold start_channel_testing at h
    by_cases hop : ch.in_operation
    · rw [if_pos hop] at h
      simp at h
    · rw [if_neg hop] at h
      cases hchk : startCheck ch.channels s.batteries with
      | some e =>
        rw [hchk] at h
        simp at h
      | none =>
        rw [hchk] at h
        dsimp only at h
        set ch' : DiagnosticChamber :=
          { ch with in_operation := true,
                    diagnostic_start_time :=
                      if ch.channels.isEmpty then ch.diagnostic_start_time else today,
                    channels := (startCommit today ch.channels s.batteries).1 } with hch'
        have hs' : s' = ⟨(startCommit today ch.channels s.batteries).2,
            s.chambers.set i ch', s.racks⟩ := (Option.some.inj h).symm
        subst hs'
        obtain ⟨hnd, hinv, hcross⟩ := hs
        have hilen : i < s.chambers.length := lt_length_of_get? _ _ _ hch
        have hchD : s.chambers.getD i dummyChamber = ch := getD_of_get? _ _ _ _ hch
        have hHRch : ∀ bc, hasRunning ch'.channels bc =
            (hasRunning ch.channels bc || (loadedOccupants ch.channels).contains bc) := by
          intro bc
          rw [hch']
          dsimp only
          rw [startCommit_fst, hasRunning_start_map]
        have hOR : ∀ bc, occupiesRunning
            ⟨(startCommit today ch.channels s.batteries).2, s.chambers.set i ch', s.racks⟩ bc =
            (occupiesRunning s bc || (loadedOccupants ch.channels).contains bc) := by
          intro bc
          unfold occupiesRunning
          exact any_set_or s.chambers i ch' ch _ _ hch (hHRch bc)
        have hBV := startCommit_bview today ch.channels s.batteries
        have hfound := startCheck_none_found ch.channels s.batteries hchk
        -- a barcode of a registered battery that occupies a loaded channel is not running anywhere
        have hnorun : ∀ b ∈ s.batteries,
            (loadedOccupants ch.channels).contains b.barcode = true →
            occupiesRunning s b.barcode = false := by
          intro b hb hcont
          obtain ⟨c, hcmem, hld, hcbc⟩ :=
            (mem_loadedOccupants ch.channels b.barcode).mp (List.elem_iff.mp hcont)
          obtain ⟨b0, hb0, hb0ud⟩ := hfound c hcmem hld
          rw [hcbc] at hb0
          rw [findBattery_of_nodup s.batteries hnd b hb] at hb0
          rw [← hinv b hb, Option.some.inj hb0]
          exact hb0ud
        refine ⟨?_, ?_, ?_⟩
        · rw [map_barcode_of_map_bview s.batteries _ _ (fun b => rfl) hBV]
          exact hnd
        · intro b' hb'
          have hmem : bview b' ∈ ((startCommit today ch.channels s.batteries).2).map bview :=
            List.mem_map_of_mem bview hb'
          rw [hBV] at hmem
          obtain ⟨b, hbmem, hview⟩ := List.mem_map.mp hmem
          have hbc : b.barcode = b'.barcode := congrArg Prod.fst hview
          have hud : (b.under_diag || (loadedOccupants ch.channels).contains b.barcode)
              = b'.under_diag := congrArg Prod.snd hview
          rw [← hud, ← hbc, hOR b.barcode, hinv b hbmem]
        · intro b' hb' j hj k hk
          have hmem : bview b' ∈ ((startCommit today ch.channels s.batteries).2).map bview :=
            List.mem_map_of_mem bview hb'
          rw [hBV] at hmem
          obtain ⟨b, hbmem, hview⟩ := List.mem_map.mp hmem
          have hbc : b.barcode = b'.barcode := congrArg Prod.fst hview
          rw [← hbc]
          dsimp only at hj hk
          rw [List.length_set] at hj hk
          by_cases hjk : j = k
          · exact Or.inl hjk
          · -- from the old invariant, at most one of the two old positions runs b
            have hold := hcross b hbmem j hj k hk
            by_cases hji : j = i
            · subst hji
              rcases hold with h0 | h0 | h0
              · exact Or.inl h0
              · -- old chamber j(=i) not running b: new = old_i || contains
                by_cases hcont : (loadedOccupants ch.channels).contains b.barcode = true
                · -- b not running anywhere before, in particular not at k
                  refine Or.inr (Or.inr ?_)
                  rw [getD_set_ne s.chambers j k ch' dummyChamber hjk]
                  have hnone := hnorun b hbmem hcont
                  unfold occupiesRunning at hnone
                  cases hkb : hasRunning (s.chambers.getD k dummyChamber).channels b.barcode with
                  | false => rfl
                  | true =>
                    have := (anyRunning_iff s.chambers b.barcode).mpr ⟨k, hk, hkb⟩
                    rw [hnone] at this
                    exact absurd this (by simp)
                · refine Or.inr (Or.inl ?_)
                  rw [getD_set_self s.chambers j ch' dummyChamber hilen, hHRch]
                  rw [hchD] at h0
                  rw [h0, Bool.false_or]
                  exact Bool.eq_false_iff.mpr hcont
              · refine Or.inr (Or.inr ?_)
                rw [getD_set_ne s.chambers j k ch' dummyChamber hjk]
                exact h0
            · by_cases hki : k = i
              · subst hki
                rcases hold with h0 | h0 | h0
                · exact Or.inl h0
                · refine Or.inr (Or.inl ?_)
                  rw [getD_set_ne s.chambers k j ch' dummyChamber (fun hx => hji hx.symm)]
                  exact h0
                · by_cases hcont : (loadedOccupants ch.channels).contains b.barcode = true
                  · refine Or.inr (Or.inl ?_)
                    rw [getD_set_ne s.chambers k j ch' dummyChamber (fun hx => hji hx.symm)]
                    have hnone := hnorun b hbmem hcont
                    unfold occupiesRunning at hnone
                    cases hjb : hasRunning (s.chambers.getD j dummyChamber).channels b.barcode with
                    | false => rfl
                    | true =>
                      have := (anyRunning_iff s.chambers b.barcode).mpr ⟨j, hj, hjb⟩
                      rw [hnone] at this
                      exact absurd this (by simp)
                  · refine Or.inr (Or.inr ?_)
                    rw [getD_set_self s.chambers k ch' dummyChamber hilen, hHRch]
                    rw [hchD] at h0
                    rw [h0, Bool.false_or]
                    exact Bool.eq_false_iff.mpr hcont
              · rcases hold with h0 | h0 | h0
                · exact Or.inl h0
                · refine Or.inr (Or.inl ?_)
                  rw [getD_set_ne s.chambers i j ch' dummyChamber (fun hx => hji hx.symm)]
                  exact h0
                · refine Or.inr (Or.inr ?_)
                  rw [getD_set_ne s.chambers i k ch' dummyChamber (fun hx => hki hx.symm)]
                  exact h0

theorem applyFinish_preserves (s s' : Registry) (i : Nat)
    (h : applyFinish s i = some s') (hs : Consistent s) : Consistent s' := by
  unfold applyFinish at h
  cases hch : s.chambers.get? i with
  | none =>
    rw [hch] at h
    simp at h
  | some ch =>
    rw [hch] at h
    dsimp only at h
    unfold diagnostic_finished at h
    cases hop : ch.in_operation with
    | false =>
      rw [hop] at h
      simp at h
    | true =>
      rw [hop] at h
      dsimp only at h
      cases hfc : finishCommit ch.channels s.batteries with
      | mk e rest =>
        rw [hfc] at h
        cases e with
        | some e0 => simp at h
        | none =>
          obtain ⟨cs2, bs2⟩ := rest
          dsimp only at h
          set ch' : DiagnosticChamber :=
            { ch with in_operation := false, channels := cs2 } with hch'
          have hs' : s' = ⟨bs2, s.chambers.set i ch', s.racks⟩ := (Option.some.inj h).symm
          subst hs'
          obtain ⟨hnd, hinv, hcross⟩ := hs
          obtain ⟨hmap, hBV⟩ := finishCommit_none ch.channels s.batteries bs2 cs2 hfc
          have hilen : i < s.chambers.length := lt_length_of_get? _ _ _ hch
          have hchD : s.chambers.getD i dummyChamber = ch := getD_of_get? _ _ _ _ hch
          have hHRch : ∀ bc, hasRunning ch'.channels bc = false := by
            intro bc
            rw [hch']
            dsimp only
            rw [hmap]
            exact hasRunning_finish_map ch.channels bc
          have hother : ∀ j, j ≠ i →
              (s.chambers.set i ch').getD j dummyChamber = s.chambers.getD j dummyChamber :=
            fun j hji => getD_set_ne s.chambers i j ch' dummyChamber (fun hx => hji hx.symm)
          have hself : (s.chambers.set i ch').getD i dummyChamber = ch' :=
            getD_set_self s.chambers i ch' dummyChamber hilen
          -- the raw after-state running test, index by index
          have hHR' : ∀ j, j < s.chambers.length → ∀ bc,
              hasRunning ((s.chambers.set i ch').getD j dummyChamber).channels bc =
                (if j = i then false
                 else hasRunning (s.chambers.getD j dummyChamber).channels bc) := by
            intro j hj bc
            by_cases hji : j = i
            · subst hji
              rw [hself, if_pos rfl, hHRch]
            · rw [hother j hji, if_neg hji]
          have hlen' : (s.chambers.set i ch').length = s.chambers.length := List.length_set _ _ _
          refine ⟨?_, ?_, ?_⟩
          · rw [map_barcode_of_map_bview s.batteries _ _ (fun b => rfl) hBV]
            exact hnd
          · intro b' hb'
            have hmem : bview b' ∈ bs2.map bview := List.mem_map_of_mem bview hb'
            rw [hBV] at hmem
            obtain ⟨b, hbmem, hview⟩ := List.mem_map.mp hmem
            have hbc : b.barcode = b'.barcode := congrArg Prod.fst hview
            have hud : (b.under_diag && !((runningOccupants ch.channels).contains b.barcode))
                = b'.under_diag := congrArg Prod.snd hview
            rw [← hud, ← hbc, contains_runningOccupants]
            have hinvb := hinv b hbmem
            cases hudb : b.under_diag with
            | false =>
              rw [hudb] at hinvb
              rw [Bool.false_and]
              cases hocc' : occupiesRunning
                  ⟨bs2, s.chambers.set i ch', s.racks⟩ b.barcode with
              | false => rfl
              | true =>
                obtain ⟨j, hj, hp⟩ := (anyRunning_iff _ _).mp hocc'
                dsimp only at hj hp
                rw [hlen'] at hj
                rw [hHR' j hj] at hp
                by_cases hji : j = i
                · rw [if_pos hji] at hp
                  exact absurd hp (by simp)
                · rw [if_neg hji] at hp
                  have h2 : occupiesRunning s b.barcode = true :=
                    (anyRunning_iff s.chambers b.barcode).mpr ⟨j, hj, hp⟩
                  rw [← hinvb] at h2
                  exact absurd h2 (by simp)
            | true =>
              rw [hudb] at hinvb
              rw [Bool.true_and]
              cases hR : hasRunning ch.channels b.barcode with
              | true =>
                -- b was running in chamber i; it is the only chamber running b
                have hres : occupiesRunning
                    ⟨bs2, s.chambers.set i ch', s.racks⟩ b.barcode = false := by
                  cases hocc' : occupiesRunning
                      ⟨bs2, s.chambers.set i ch', s.racks⟩ b.barcode with
                  | false => rfl
                  | true =>
                    obtain ⟨j, hj, hp⟩ := (anyRunning_iff _ _).mp hocc'
                    dsimp only at hj hp
                    rw [hlen'] at hj
                    rw [hHR' j hj] at hp
                    by_cases hji : j = i
                    · rw [if_pos hji] at hp
                      exact absurd hp (by simp)
                    · rw [if_neg hji] at hp
                      rcases hcross b hbmem j hj i hilen with h0 | h0 | h0
                      · exact absurd h0 hji
                      · rw [hp] at h0
                        exact absurd h0 (by simp)
                      · rw [hchD, hR] at h0
                        exact absurd h0 (by simp)
                exact hres.symm
              | false =>
                -- b runs in some chamber other than i, untouched by the finish
                obtain ⟨j, hj, hp⟩ := (anyRunning_iff s.chambers b.barcode).mp hinvb.symm
                have hji : j ≠ i := by
                  intro hx
                  rw [hx, hchD, hR] at hp
                  exact absurd hp (by simp)
                have : occupiesRunning ⟨bs2, s.chambers.set i ch', s.racks⟩ b.barcode = true := by
                  refine (anyRunning_iff _ _).mpr ⟨j, ?_, ?_⟩
                  · dsimp only
                    rw [hlen']
                    exact hj
                  · dsimp only
                    rw [hHR' j hj, if_neg hji]
                    exact hp
                exact this.symm
          · intro b' hb' j hj k hk
            have hmem : bview b' ∈ bs2.map bview := List.mem_map_of_mem bview hb'
            rw [hBV] at hmem
            obtain ⟨b, hbmem, hview⟩ := List.mem_map.mp hmem
            have hbc : b.barcode = b'.barcode := congrArg Prod.fst hview
            rw [← hbc]
            dsimp only at hj hk
            rw [hlen'] at hj hk
            by_cases hji : j = i
            · refine Or.inr (Or.inl ?_)
              rw [hHR' j hj, if_pos hji]
            · by_cases hki : k = i
              · refine Or.inr (Or.inr ?_)
                rw [hHR' k hk, if_pos hki]
              · rw [hHR' j hj, if_neg hji, hHR' k hk, if_neg hki]
                exact hcross b hbmem j hj k hk

theorem safeStep_preserves (s1 s2 : Registry) (hs : Consistent s1) (h : SafeStep s1 s2) :
    Consistent s2 :=
  match h with
  | .assign _ => hs
  | .load _ _ i rows ch hch hsafe happ => applyLoad_preserves _ _ i rows ch hch hsafe happ hs
  | .start _ _ i today happ => applyStart_preserves _ _ i today happ hs
  | .finish _ _ i happ => applyFinish_preserves _ _ i happ hs
  | .ret _ _ i rows ch hch hsafe happ => applyReturn_preserves _ _ i rows ch hch hsafe happ hs

/-- C5 (amended): starting from a consistent registry, every state
reachable by the core operations — channel assignment (which mutates
nothing), verify-and-load, start testing, diagnostic finished and
verify-and-return — satisfies the invariant "a unit has `under_diag` iff
it occupies a `running` channel", provided each verify-and-load checklist
targets only channels that are currently `unoccupied` and each
verify-and-return checklist only channels that are currently `completed`
(the `unoccupied → loaded` resp. `completed → unoccupied` edges of the
spec §3 channel state machine). -/
theorem claim_C5_invariant (s0 s : Registry) (h0 : Consistent s0)
    (h : ReachBy SafeStep s0 s) : UnderDiagInv s := by
  have hc : Consistent s := by
    induction h with
    | refl => exact h0
    | tail t u hreach hstep ih => exact safeStep_preserves t u ih hstep
  exact hc.2.1

/-- Concrete consistent registry: unit `X` stored in rack `R1`, one
single-channel station. -/
def regC0 : Registry := ⟨[unitX], [stationW], [rackR1]⟩

/-- The checklist loading `X` onto channel `C1`, correctly scanned. -/
def rows1 : List VRow := [⟨"X", "C1", "X"⟩]

/-- Witness for the amended C5 at a concrete instantiation. -/
theorem claim_C5_witness : UnderDiagInv regC0 :=
  claim_C5_invariant regC0 regC0 (by decide) (ReachBy.refl regC0)

/-- State after loading `X` onto `C1`. -/
def regC1 : Registry := (applyLoad regC0 0 rows1).getD regC0

/-- State after starting the station. -/
def regC2 : Registry := (applyStart regC1 0 "T").getD regC0

/-- State after re-running the same (still correctly scanned) load
checklist while `C1` is running. -/
def regC3 : Registry := (applyLoad regC2 0 rows1).getD regC0

/-- C5 counterexample: from the consistent registry `regC0`, the
operation sequence load `X` → start testing → load the same checklist
again reaches `regC3`, where `X.under_diag = true` but channel `C1` has
been overwritten back to `loaded`, so `X` occupies no running channel:
`verify_and_load` never checks the prior channel state, so the invariant
is not maintained by arbitrary sequences of the core operations. -/
theorem claim_C5_counterexample :
    Consistent regC0 ∧ ReachBy Step regC0 regC3 ∧ ¬ UnderDiagInv regC3 := by
  refine ⟨by decide, ?_, by decide⟩
  have h1 : applyLoad regC0 0 rows1 = some regC1 := by decide
  have h2 : applyStart regC1 0 "T" = some regC2 := by decide
  have h3 : applyLoad regC2 0 rows1 = some regC3 := by decide
  exact ReachBy.tail _ _ _
    (ReachBy.tail _ _ _
      (ReachBy.tail _ _ _ (ReachBy.refl regC0) (Step.load _ _ 0 rows1 h1))
      (Step.start _ _ 0 "T" h2))
    (Step.load _ _ 0 rows1 h3)

end CalAge
